import Mathlib

set_option maxHeartbeats 1000000

namespace ZkPoker

/-- Card values Two..Ace in ascending order. Modelled from the spec: the file
poker/core/card.rs is not among the provided sources; the spec fixes
value in Two..Ace with this ascending order (section 3, Data Model). -/
inductive Value where
  | two | three | four | five | six | seven | eight | nine | ten
  | jack | queen | king | ace
deriving DecidableEq, Repr

/-- Card suits. Modelled from the spec: suit in Club, Diamond, Heart, Spade
(section 3, Data Model). -/
inductive Suit where
  | club | diamond | heart | spade
deriving DecidableEq, Repr

/-- A playing card: a (value, suit) pair, 52 distinct instances (spec section 3). -/
structure Card where
  value : Value
  suit : Suit
deriving DecidableEq, Repr

/-- Numeric index of a value, Two = 0 .. Ace = 12, used for the canonical order. -/
def Value.toNat : Value → Nat
  | .two => 0
  | .three => 1
  | .four => 2
  | .five => 3
  | .six => 4
  | .seven => 5
  | .eight => 6
  | .nine => 7
  | .ten => 8
  | .jack => 9
  | .queen => 10
  | .king => 11
  | .ace => 12

/-- Numeric index of a suit in the enumeration order of Suit::suits(). -/
def Suit.toNat : Suit → Nat
  | .club => 0
  | .diamond => 1
  | .heart => 2
  | .spade => 3

/-- Value::values(): the thirteen card values in ascending order. -/
def Value.values : List Value :=
  [.two, .three, .four, .five, .six, .seven, .eight, .nine, .ten,
   .jack, .queen, .king, .ace]

/-- Suit::suits(): the four suits in enumeration order. -/
def Suit.suits : List Suit := [.club, .diamond, .heart, .spade]

/-- Canonical linear position of a card in the (value, suit) sort: all Twos by
suit, then all Threes, and so on (spec section 3). -/
def Card.idx (c : Card) : Nat := c.value.toNat * 4 + c.suit.toNat

/-- The card list built by FlatDeck::new before shuffling: the outer loop runs
over Value::values(), the inner loop over Suit::suits()
(src/libraries/table/src/poker/core/flat_deck.rs lines 158-166). -/
def canonicalCards : List Card :=
  Value.values.flatMap (fun v => Suit.suits.map (fun s => Card.mk v s))

/-- Vec::swap on lists: exchange the elements at positions i and j, total
(out-of-range indices leave the list unchanged; the source only swaps
in-range indices). -/
def swapList {α : Type} (l : List α) (i j : Nat) : List α :=
  match l[i]?, l[j]? with
  | some a, some b => (l.set i b).set j a
  | _, _ => l

namespace FlatDeck

/-- FlatDeck::unbiased_index (flat_deck.rs lines 41-55). The ChaCha20 keystream
(rand_chacha, an external crate) is abstracted as a byte stream: the next
drawn byte at stream position pos is stream pos % 256, modelling
rng.next_u32() & 0xFF. The Rust loop runs until a byte is accepted; the fuel
argument bounds the number of draws, and none models a run that has not
accepted within fuel draws. Returns the produced index together with the
next stream position. -/
def unbiasedIndexLoop (stream : Nat → Nat) (upper : Nat) : Nat → Nat → Option (Nat × Nat)
  | _, 0 => none
  | pos, fuel+1 =>
    let b := stream pos % 256
    if b < 256 - 256 % upper then some (b % upper, pos + 1)
    else unbiasedIndexLoop stream upper (pos + 1) fuel

/-- The loop of FlatDeck::shuffle (flat_deck.rs lines 82-88): k iterations
remain, i is the current position, and pos the current stream position. Each
iteration draws an unbiased offset in [0, cards.length - i) and swaps the
cards at i and i + offset. -/
def shuffleIter (stream : Nat → Nat) (fuel : Nat) : Nat → Nat → Nat → List Card → Option (List Card)
  | 0, _, _, cards => some cards
  | k+1, pos, i, cards =>
    match unbiasedIndexLoop stream (cards.length - i) pos fuel with
    | none => none
    | some (off, pos2) => shuffleIter stream fuel k pos2 (i+1) (swapList cards i (i + off))

/-- FlatDeck::shuffle (flat_deck.rs lines 66-89): decks of length at most one
are returned unchanged; otherwise the Fisher-Yates loop runs for
cards.length - 1 iterations starting at position 0 of the byte stream. -/
def shuffle (stream : Nat → Nat) (fuel : Nat) (cards : List Card) : Option (List Card) :=
  if cards.length ≤ 1 then some cards
  else shuffleIter stream fuel (cards.length - 1) 0 0 cards

/-- FlatDeck::new (flat_deck.rs lines 155-172): build the canonical sorted
52-card list, then shuffle it with the byte stream derived from the seed. -/
def new (stream : Nat → Nat) (fuel : Nat) : Option (List Card) :=
  shuffle stream fuel canonicalCards

/-- FlatDeck::deal (flat_deck.rs lines 93-95): pop a card from the tail. -/
def deal (l : List Card) : Option (Card × List Card) :=
  match l.getLast? with
  | none => none
  | some c => some (c, l.dropLast)

/-- Deal n cards one after another from the tail, returning the dealt cards
(in deal order) and the remaining deck; dealing stops if the deck empties. -/
def dealMany : Nat → List Card → List Card × List Card
  | 0, d => ([], d)
  | n+1, d =>
    match d.getLast? with
    | none => ([], d)
    | some c =>
      let r := dealMany n d.dropLast
      (c :: r.1, r.2)

end FlatDeck

/-- Game-error kinds reached by the embedded functions (the errors crate is not
among the provided sources; the kinds follow spec section 7 and the doc
comments in deal_functions.rs and showdown.rs). -/
inductive GameError where
  | noCardsLeft
  | playerNotFound
  | other
deriving DecidableEq, Repr

/-- Deal stages (spec section 3): Fresh, Opening, Flop, Turn, River, Showdown. -/
inductive DealStage where
  | fresh | opening | flop | turn | river | showdown
deriving DecidableEq, Repr

/-- Player actions (spec section 3). -/
inductive PlayerAction where
  | active | checked | called | raised | folded | allIn | sittingOut | joining
deriving DecidableEq, Repr

/-- Seat states (spec section 3): Empty or Occupied(playerId); wallet principal
ids are modelled as naturals. -/
inductive SeatStatus where
  | empty
  | occupied (principal : Nat)
deriving DecidableEq, Repr

/-- TableStatus (types.rs lines 38-47); Open is rendered opened to avoid the
keyword. -/
inductive TableStatus where
  | opened | closed | paused | reserved
deriving DecidableEq, Repr

/-- GameType (types.rs lines 50-64). -/
inductive GameType where
  | noLimit (bb : Nat)
  | fixedLimit (smallBet bigBet : Nat)
  | spreadLimit (minBet maxBet : Nat)
  | potLimit (bb : Nat)
  | potLimitOmaha4 (bb : Nat)
  | potLimitOmaha5 (bb : Nat)
deriving DecidableEq, Repr

/-- CurrencyType (spec section 6): Real(assetId) or Fake. -/
inductive CurrencyType where
  | real (assetId : Nat)
  | fake
deriving DecidableEq, Repr

/-- Hand ranks (spec sections 3 and 4.2): totally ordered sum type; each
variant carries its kicker information as one natural number, compared after
the variant index (the rank library under poker/core is not among the provided
sources; the shape follows the spec). -/
inductive Rank where
  | highCard (k : Nat)
  | pair (k : Nat)
  | twoPair (k : Nat)
  | threeOfAKind (k : Nat)
  | straight (k : Nat)
  | flush (k : Nat)
  | fullHouse (k : Nat)
  | fourOfAKind (k : Nat)
  | straightFlush (k : Nat)
deriving DecidableEq, Repr

/-- The variant index of a rank, HighCard = 0 .. StraightFlush = 8. -/
def Rank.variantIdx : Rank → Nat
  | .highCard _ => 0
  | .pair _ => 1
  | .twoPair _ => 2
  | .threeOfAKind _ => 3
  | .straight _ => 4
  | .flush _ => 5
  | .fullHouse _ => 6
  | .fourOfAKind _ => 7
  | .straightFlush _ => 8

/-- The kicker payload of a rank. -/
def Rank.kick : Rank → Nat
  | .highCard k => k
  | .pair k => k
  | .twoPair k => k
  | .threeOfAKind k => k
  | .straight k => k
  | .flush k => k
  | .fullHouse k => k
  | .fourOfAKind k => k
  | .straightFlush k => k

/-- Strict order on ranks: variant index first, kicker second (spec 4.2). -/
def Rank.ltb (a b : Rank) : Bool :=
  a.variantIdx < b.variantIdx
    || (a.variantIdx = b.variantIdx && a.kick < b.kick)

/-- Reflexive order on ranks. -/
def Rank.leb (a b : Rank) : Bool :=
  Rank.ltb a b || (a.variantIdx = b.variantIdx && a.kick = b.kick)

/-- ActionType constructors referenced from deal_functions.rs and showdown.rs
(action_log.rs is not among the provided sources); an opaque catch-all
stands for the remaining constructors. -/
inductive ActionType where
  | stage (stage : DealStage)
  | playersHandsRankedSidePot (hands : List (String × List Card × Nat))
  | playersHandsRankedMainPot (hands : List (String × List Card × Nat))
  | otherAction (tag : Nat)
deriving DecidableEq, Repr

/-- An action-log entry: the acting user (None for engine events) and the
action (log_action is called as log_action(None, ActionType) in the sources;
action_log.rs itself is not provided). -/
structure ActionLog where
  user : Option Nat
  action : ActionType
deriving DecidableEq, Repr

/-- QueueItem (types.rs lines 24-34). -/
inductive QueueItem where
  | sittingIn (p : Nat) (autoStart : Bool)
  | deposit (p : Nat) (usersCanister : Nat) (amount : Nat)
  | sittingOut (p : Nat)
  | removeUser (p : Nat) (action : ActionType)
  | leaveTableToMove (usersCanister : Nat) (p : Nat) (tableId : Nat)
  | updateBlinds (smallBlind : Nat) (bigBlind : Nat) (ante : Option Nat)
  | pauseTable
  | pauseTableForAddon (duration : Nat)
deriving DecidableEq, Repr

/-- Per-player per-round table data (spec section 3); the sources read and
write cards, current_total_bet and player_action; the join-round marker is
kept for completeness. -/
structure UserTableData where
  cards : List Card
  current_total_bet : Nat
  player_action : PlayerAction
  joined_round : Nat
deriving DecidableEq, Repr

/-- SidePot (spec section 3): eligible players, unconfirmed accumulator and
confirmed total (side_pot.rs is not among the provided sources; the fields
follow the spec and the accesses in showdown.rs). -/
structure SidePot where
  user_principals : List Nat
  pot : Nat
  confirmed_pot : Nat
deriving DecidableEq, Repr

/-- Modelled from the spec: SidePot::confirm_pot confirms the pending
accumulator into the confirmed total (side_pot.rs is not provided). -/
def SidePot.confirmPot (s : SidePot) : SidePot :=
  { s with confirmed_pot := s.pot }

/-- A user record (the user crate is not among the provided sources); the
embedded functions use the wallet principal, the balance (User::deposit adds
to it) and the display name. -/
structure UserRec where
  principal_id : Nat
  balance : Nat
  user_name : String
deriving DecidableEq, Repr

/-- UserCards (types.rs lines 68-74): a ranked-showdown output entry. -/
structure UserCards where
  id : Nat
  cards : List Card
  rank : Rank
  amount_won : Nat
deriving DecidableEq, Repr

/-- CardProvenance (types.rs lines 513-537). -/
structure CardProvenance where
  round_id : Nat
  card : Card
  original_position : Nat
  shuffled_position : Nat
  card_hash : String
  dealt_to : Option Nat
  dealt_at_stage : Option DealStage
deriving DecidableEq, Repr

/-- RngMetadata (types.rs lines 466-493). -/
structure RngMetadata where
  round_id : Nat
  raw_random_bytes : List Nat
  time_seed : Nat
  timestamp_ns : Nat
  deck_hash : String
  ic_transaction_id : Option String
  shuffled_deck : List Card
deriving DecidableEq, Repr

/-- Modelled from the spec: TableConfig (table.rs is not among the provided
sources); the recognized options of spec section 6 plus enable_rake, read as
an Option Bool in showdown.rs. -/
structure TableConfig where
  game_type : GameType
  seats : Nat
  currency_type : CurrencyType
  enable_rake : Option Bool
  auto_start_timer : Nat
  turn_timer : Nat
deriving DecidableEq, Repr

/-- The live Table aggregate. The struct definition (table.rs) is not among the
provided sources; the field list is reconstructed from the total conversions
in types.rs lines 369-445, which enumerate every field. -/
structure Table where
  id : Nat
  config : TableConfig
  seats : List SeatStatus
  community_cards : List Card
  deck : List Card
  pot : Nat
  side_pots : List SidePot
  status : TableStatus
  deal_stage : DealStage
  big_blind : Nat
  small_blind : Nat
  big_blind_user_principal : Nat
  small_blind_user_principal : Nat
  dealer_position : Nat
  current_player_index : Nat
  winners : Option (List UserRec)
  sorted_users : Option (List UserCards)
  action_logs : List ActionLog
  user_table_data : List (Nat × UserTableData)
  highest_bet : Nat
  highest_bet_in_pot : Nat
  last_raise : Nat
  last_raise_principal : Nat
  is_side_pot_active : Bool
  round_ticker : Nat
  last_timer_started_timestamp : Nat
  users : List UserRec
  timer : Option Nat
  notifications : List Nat
  queue : List QueueItem
  rake_config : Option Nat
  rake_total : Option Nat
  rng_history : List RngMetadata
  card_provenance : List (String × CardProvenance)
deriving DecidableEq, Repr

/-- StorableTable (types.rs lines 296-330): every Table field except the
runtime-only timer and notifications and except rake_config and rake_total,
plus the RNG transparency fields. -/
structure StorableTable where
  id : Nat
  config : TableConfig
  seats : List SeatStatus
  community_cards : List Card
  deck : List Card
  pot : Nat
  side_pots : List SidePot
  status : TableStatus
  deal_stage : DealStage
  big_blind : Nat
  small_blind : Nat
  big_blind_user_principal : Nat
  small_blind_user_principal : Nat
  dealer_position : Nat
  current_player_index : Nat
  winners : Option (List UserRec)
  sorted_users : Option (List UserCards)
  action_logs : List ActionLog
  user_table_data : List (Nat × UserTableData)
  highest_bet : Nat
  highest_bet_in_pot : Nat
  last_raise : Nat
  last_raise_principal : Nat
  is_side_pot_active : Bool
  round_ticker : Nat
  last_timer_started_timestamp : Nat
  users : List UserRec
  queue : List QueueItem
  rng_history : List RngMetadata
  card_provenance : List (String × CardProvenance)
deriving DecidableEq, Repr

/-- impl From Table for StorableTable (types.rs lines 410-445): copy every
stored field. -/
def Table.toStorable (t : Table) : StorableTable :=
  { id := t.id
    config := t.config
    seats := t.seats
    community_cards := t.community_cards
    deck := t.deck
    pot := t.pot
    side_pots := t.side_pots
    status := t.status
    deal_stage := t.deal_stage
    big_blind := t.big_blind
    small_blind := t.small_blind
    big_blind_user_principal := t.big_blind_user_principal
    small_blind_user_principal := t.small_blind_user_principal
    dealer_position := t.dealer_position
    current_player_index := t.current_player_index
    winners := t.winners
    sorted_users := t.sorted_users
    action_logs := t.action_logs
    user_table_data := t.user_table_data
    highest_bet := t.highest_bet
    highest_bet_in_pot := t.highest_bet_in_pot
    last_raise := t.last_raise
    last_raise_principal := t.last_raise_principal
    is_side_pot_active := t.is_side_pot_active
    round_ticker := t.round_ticker
    last_timer_started_timestamp := t.last_timer_started_timestamp
    users := t.users
    queue := t.queue
    rng_history := t.rng_history
    card_provenance := t.card_provenance }

/-- impl From StorableTable for Table (types.rs lines 369-408): copy every
stored field; timer is restored as None, notifications as empty, and
rake_config and rake_total are reset to None. -/
def StorableTable.toTable (s : StorableTable) : Table :=
  { id := s.id
    config := s.config
    seats := s.seats
    community_cards := s.community_cards
    deck := s.deck
    pot := s.pot
    side_pots := s.side_pots
    status := s.status
    deal_stage := s.deal_stage
    big_blind := s.big_blind
    small_blind := s.small_blind
    big_blind_user_principal := s.big_blind_user_principal
    small_blind_user_principal := s.small_blind_user_principal
    dealer_position := s.dealer_position
    current_player_index := s.current_player_index
    winners := s.winners
    sorted_users := s.sorted_users
    action_logs := s.action_logs
    user_table_data := s.user_table_data
    highest_bet := s.highest_bet
    highest_bet_in_pot := s.highest_bet_in_pot
    last_raise := s.last_raise
    last_raise_principal := s.last_raise_principal
    is_side_pot_active := s.is_side_pot_active
    round_ticker := s.round_ticker
    last_timer_started_timestamp := s.last_timer_started_timestamp
    users := s.users
    timer := none
    notifications := []
    queue := s.queue
    rake_config := none
    rake_total := none
    rng_history := s.rng_history
    card_provenance := s.card_provenance }

/-- PublicTable (types.rs lines 91-115): the table value sent to clients. -/
structure PublicTable where
  id : Nat
  config : TableConfig
  seats : List SeatStatus
  community_cards : List Card
  pot : Nat
  side_pots : List SidePot
  status : TableStatus
  deal_stage : DealStage
  big_blind : Nat
  small_blind : Nat
  dealer_position : Nat
  current_player_index : Nat
  winners : Option (List UserRec)
  sorted_users : Option (List UserCards)
  action_logs : List ActionLog
  user_table_data : List (Nat × UserTableData)
  highest_bet : Nat
  last_raise : Nat
  round_ticker : Nat
  last_timer_started_timestamp : Nat
  users : List UserRec
  queue : List QueueItem
deriving DecidableEq, Repr

/-- impl From for PublicTable over a table reference (types.rs lines 234-261):
every public field is cloned from the table, including the complete
user_table_data map with each player's hole cards. -/
def Table.toPublicTable (t : Table) : PublicTable :=
  { id := t.id
    config := t.config
    seats := t.seats
    community_cards := t.community_cards
    pot := t.pot
    side_pots := t.side_pots
    status := t.status
    deal_stage := t.deal_stage
    big_blind := t.big_blind
    small_blind := t.small_blind
    dealer_position := t.dealer_position
    current_player_index := t.current_player_index
    winners := t.winners
    sorted_users := t.sorted_users
    action_logs := t.action_logs
    user_table_data := t.user_table_data
    highest_bet := t.highest_bet
    last_raise := t.last_raise
    round_ticker := t.round_ticker
    last_timer_started_timestamp := t.last_timer_started_timestamp
    users := t.users
    queue := t.queue }

/-- Table::update_card_provenance (deal_functions.rs lines 16-76): walk the
provenance ledger and update the first record that belongs to the current
round, matches the card by value and suit, and has dealt_to still unset;
set its dealt_to and dealt_at_stage and stop. -/
def updateProvList (roundId : Nat) (card : Card) (dealtTo : Option Nat)
    (stage : DealStage) :
    List (String × CardProvenance) → List (String × CardProvenance)
  | [] => []
  | (k, p) :: rest =>
    if p.round_id = roundId ∧ p.card = card ∧ p.dealt_to = none then
      (k, { p with dealt_to := dealtTo, dealt_at_stage := some stage }) :: rest
    else
      (k, p) :: updateProvList roundId card dealtTo stage rest

/-- Table::update_card_provenance wrapper on the table state. -/
def Table.updateCardProvenance (t : Table) (card : Card) (dealtTo : Option Nat)
    (stage : DealStage) : Table :=
  { t with card_provenance :=
      updateProvList t.round_ticker card dealtTo stage t.card_provenance }

/-- Modelled from the spec: Table::log_action (action_log.rs is not among the
provided sources); the engine appends each event to the action log in order
(spec section 5, ordering guarantees). -/
def Table.logAction (t : Table) (user : Option Nat) (a : ActionType) : Table :=
  { t with action_logs := t.action_logs ++ [⟨user, a⟩] }

/-- Table::burn_card (deal_functions.rs lines 264-269): pop a card from the
deck and discard it; NoCardsLeft if the deck is empty. No provenance record is
touched. -/
def Table.burnCard (t : Table) : Option GameError × Table :=
  match t.deck.getLast? with
  | none => (some GameError.noCardsLeft, t)
  | some _ => (none, { t with deck := t.deck.dropLast })

/-- Table::deal_card (deal_functions.rs lines 248-257): pop a card, update its
provenance with no owner at the current stage, and append it to the community
cards. -/
def Table.dealCommunityCard (t : Table) : Option GameError × Table :=
  match t.deck.getLast? with
  | none => (some GameError.noCardsLeft, t)
  | some c =>
    let t1 := { t with deck := t.deck.dropLast }
    let t2 := t1.updateCardProvenance c none t1.deal_stage
    (none, { t2 with community_cards := t2.community_cards ++ [c] })

/-- Table::burn_and_deal (deal_functions.rs lines 235-241). -/
def Table.burnAndDeal (t : Table) : Option GameError × Table :=
  match t.burnCard with
  | (some e, t1) => (some e, t1)
  | (none, t1) => t1.dealCommunityCard

/-- Table::deal_flop_cards (deal_functions.rs lines 195-204): burn one card,
deal three community cards, and advance to Turn. -/
def Table.dealFlopCards (t : Table) : Option GameError × Table :=
  match t.burnCard with
  | (some e, t1) => (some e, t1)
  | (none, t1) =>
    match t1.dealCommunityCard with
    | (some e, t2) => (some e, t2)
    | (none, t2) =>
      match t2.dealCommunityCard with
      | (some e, t3) => (some e, t3)
      | (none, t3) =>
        match t3.dealCommunityCard with
        | (some e, t4) => (some e, t4)
        | (none, t4) => (none, { t4 with deal_stage := DealStage.turn })

/-- Table::deal_turn_card (deal_functions.rs lines 211-216). -/
def Table.dealTurnCard (t : Table) : Option GameError × Table :=
  match t.burnAndDeal with
  | (some e, t1) => (some e, t1)
  | (none, t1) => (none, { t1 with deal_stage := DealStage.river })

/-- Table::deal_river_card (deal_functions.rs lines 223-228). -/
def Table.dealRiverCard (t : Table) : Option GameError × Table :=
  match t.burnAndDeal with
  | (some e, t1) => (some e, t1)
  | (none, t1) => (none, { t1 with deal_stage := DealStage.showdown })

/-- The hole-card count per game type (deal_functions.rs lines 144-148). -/
def numHoleCards : GameType → Nat
  | GameType.potLimitOmaha4 _ => 4
  | GameType.potLimitOmaha5 _ => 5
  | _ => 2

/-- The occupied seat principals in seat-array order (deal_functions.rs lines
151-161). -/
def occupiedPrincipals (seats : List SeatStatus) : List Nat :=
  seats.filterMap (fun s =>
    match s with
    | SeatStatus.occupied p => some p
    | SeatStatus.empty => none)

/-- HashMap::get on the user_table_data map (unique keys). -/
def lookupUTD (m : List (Nat × UserTableData)) (p : Nat) : Option UserTableData :=
  (m.find? (fun e => e.1 == p)).map (fun e => e.2)

/-- HashMap::get_mut followed by cards.push on the user_table_data map: append
one card to the entry of player p, if present. -/
def pushCardUTD (p : Nat) (c : Card) :
    List (Nat × UserTableData) → List (Nat × UserTableData)
  | [] => []
  | (q, d) :: rest =>
    if q = p then (q, { d with cards := d.cards ++ [c] }) :: rest
    else (q, d) :: pushCardUTD p c rest

/-- One pass of the inner loop of Table::deal_opening_cards (deal_functions.rs
lines 163-185): walk the occupied principals in seat order; a player whose
data is missing counts as sitting out; each player not sitting out receives
one card popped from the deck, with provenance recorded at Opening stage. -/
def Table.dealPass (t : Table) : List Nat → Option GameError × Table
  | [] => (none, t)
  | p :: rest =>
    let sittingOut :=
      match lookupUTD t.user_table_data p with
      | some d => d.player_action == PlayerAction.sittingOut
      | none => true
    if sittingOut then Table.dealPass t rest
    else
      match t.deck.getLast? with
      | none => (some GameError.noCardsLeft, t)
      | some card =>
        let t1 := { t with deck := t.deck.dropLast }
        let t2 := t1.updateCardProvenance card (some p) DealStage.opening
        let t3 := { t2 with user_table_data := pushCardUTD p card t2.user_table_data }
        Table.dealPass t3 rest

/-- The outer pass loop of Table::deal_opening_cards: k passes over the
occupied principals, dealing one card each pass. -/
def Table.dealPasses (t : Table) (ps : List Nat) : Nat → Option GameError × Table
  | 0 => (none, t)
  | k+1 =>
    match t.dealPass ps with
    | (some e, t1) => (some e, t1)
    | (none, t1) => Table.dealPasses t1 ps k

/-- Table::deal_opening_cards (deal_functions.rs lines 143-188): deal
numHoleCards passes over the occupied principals (in seat-array order from
seat 0) and advance to Flop. -/
def Table.dealOpeningCards (t : Table) : Option GameError × Table :=
  match t.dealPasses (occupiedPrincipals t.seats) (numHoleCards t.config.game_type) with
  | (some e, t1) => (some e, t1)
  | (none, t1) => (none, { t1 with deal_stage := DealStage.flop })

/-- Modelled from the spec: Table::clean_up_side_pots (the side-pot functions
are not among the provided sources); between stages side pots are confirmed
(spec section 4.5); it does not fail in this model. -/
def Table.cleanUpSidePots (t : Table) : Option GameError × Table :=
  (none, { t with side_pots := t.side_pots.map SidePot.confirmPot })

/-- Apply f to the last element of a list, if any. -/
def mapLast {α : Type} (f : α → α) : List α → List α
  | [] => []
  | [a] => [f a]
  | a :: b :: rest => a :: mapLast f (b :: rest)

/-- Modelled from the spec: Table::get_side_pot_mut().confirm_pot() in
deal_cards (side-pot functions are not among the provided sources): confirm
the currently accumulating (most recent) side pot; fails when there is none. -/
def Table.confirmActiveSidePot (t : Table) : Option GameError × Table :=
  match t.side_pots with
  | [] => (some GameError.other, t)
  | _ => (none, { t with side_pots := mapLast SidePot.confirmPot t.side_pots })

/-- Modelled from the spec: Table::prepare_user_actions (not among the provided
sources); between stages the players that can still act are reset to Active
(spec section 4.5). -/
def Table.prepareUserActions (t : Table) (_isCycling : Bool) :
    Option GameError × Table :=
  (none, { t with user_table_data := t.user_table_data.map (fun e =>
    if e.2.player_action = PlayerAction.folded
        ∨ e.2.player_action = PlayerAction.sittingOut
        ∨ e.2.player_action = PlayerAction.allIn
        ∨ e.2.player_action = PlayerAction.joining then e
    else (e.1, { e.2 with player_action := PlayerAction.active })) })

/-- The tail of Table::deal_cards after the stage dispatch (deal_functions.rs
lines 121-134): confirm the active side pot when one is active and the game is
not cycling to showdown, prepare user actions, and zero highest_bet,
highest_bet_in_pot and last_raise. -/
def Table.dealCardsPost (t : Table) (isCycling : Bool) : Option GameError × Table :=
  match (if t.is_side_pot_active && !isCycling
    then t.confirmActiveSidePot else (none, t)) with
  | (some e, t1) => (some e, t1)
  | (none, t1) =>
    match t1.prepareUserActions isCycling with
    | (some e, t2) => (some e, t2)
    | (none, t2) =>
      (none, { t2 with highest_bet := 0, highest_bet_in_pot := 0, last_raise := 0 })

/-- Table::deal_cards (deal_functions.rs lines 89-135): clean up side pots, log
the current stage, dispatch on the stage (Opening returns directly after
dealing hole cards), then run the post steps. -/
def Table.dealCards (t : Table) (isCycling : Bool) : Option GameError × Table :=
  match t.cleanUpSidePots with
  | (some e, t1) => (some e, t1)
  | (none, t1) =>
    let t2 := t1.logAction none (ActionType.stage t1.deal_stage)
    match t2.deal_stage with
    | DealStage.opening => t2.dealOpeningCards
    | DealStage.flop =>
      match t2.dealFlopCards with
      | (some e, t3) => (some e, t3)
      | (none, t3) => t3.dealCardsPost isCycling
    | DealStage.turn =>
      match t2.dealTurnCard with
      | (some e, t3) => (some e, t3)
      | (none, t3) => t3.dealCardsPost isCycling
    | DealStage.river =>
      match t2.dealRiverCard with
      | (some e, t3) => (some e, t3)
      | (none, t3) => t3.dealCardsPost isCycling
    | _ => t2.dealCardsPost isCycling

/-- The dealt_at_stage of the (first) provenance record for a card. -/
def provStageOf (l : List (String × CardProvenance)) (c : Card) : Option DealStage :=
  match l.find? (fun e => e.2.card == c) with
  | some e => e.2.dealt_at_stage
  | none => none

/-- The hole cards a player currently holds, read through the table-data map. -/
def cardsOf (t : Table) (p : Nat) : Option (List Card) :=
  (lookupUTD t.user_table_data p).map (fun d => d.cards)

/-- The number of hole cards a player currently holds. -/
def cardsLen (t : Table) (p : Nat) : Option Nat :=
  (lookupUTD t.user_table_data p).map (fun d => d.cards.length)

/-- The player_action recorded for a player. -/
def actOf (t : Table) (p : Nat) : Option PlayerAction :=
  (lookupUTD t.user_table_data p).map (fun d => d.player_action)

/-- Whether the opening deal treats the player as receiving cards: data present
and not sitting out (the negation of the is_sitting_out test of
deal_functions.rs lines 166-170). -/
def isActive (t : Table) (p : Nat) : Bool :=
  match lookupUTD t.user_table_data p with
  | some d => !(d.player_action == PlayerAction.sittingOut)
  | none => false

/-- Five sample cards used by the concrete tables below. -/
def cA : Card := ⟨Value.two, Suit.club⟩

def cB : Card := ⟨Value.two, Suit.diamond⟩

def cC : Card := ⟨Value.two, Suit.heart⟩

def cD : Card := ⟨Value.two, Suit.spade⟩

def cE : Card := ⟨Value.three, Suit.club⟩

/-- A fresh provenance record for a card in round 0 (dealt_to and
dealt_at_stage unset, as pre-created at round start). -/
def exProv (c : Card) : CardProvenance :=
  { round_id := 0
    card := c
    original_position := 0
    shuffled_position := 0
    card_hash := ""
    dealt_to := none
    dealt_at_stage := none }

/-- A sample table configuration. -/
def exConfig : TableConfig :=
  { game_type := GameType.noLimit 100
    seats := 2
    currency_type := CurrencyType.fake
    enable_rake := none
    auto_start_timer := 0
    turn_timer := 0 }

/-- A sample empty table used as the base of the concrete scenarios. -/
def exTable : Table :=
  { id := 0
    config := exConfig
    seats := []
    community_cards := []
    deck := []
    pot := 0
    side_pots := []
    status := TableStatus.opened
    deal_stage := DealStage.fresh
    big_blind := 200
    small_blind := 100
    big_blind_user_principal := 0
    small_blind_user_principal := 0
    dealer_position := 0
    current_player_index := 0
    winners := none
    sorted_users := none
    action_logs := []
    user_table_data := []
    highest_bet := 0
    highest_bet_in_pot := 0
    last_raise := 0
    last_raise_principal := 0
    is_side_pot_active := false
    round_ticker := 0
    last_timer_started_timestamp := 0
    users := []
    timer := none
    notifications := []
    queue := []
    rake_config := none
    rake_total := none
    rng_history := []
    card_provenance := [] }

/-- A table about to deal the flop from a five-card deck, with fresh
provenance records for all five cards. -/
def flopTable : Table :=
  { exTable with
    deal_stage := DealStage.flop
    deck := [cA, cB, cC, cD, cE]
    card_provenance :=
      [("a", exProv cA), ("b", exProv cB), ("c", exProv cC),
       ("d", exProv cD), ("e", exProv cE)] }

/-- A table about to deal the flop whose deck holds only two cards, so the
third community card runs out of cards. -/
def failTable : Table :=
  { exTable with
    deal_stage := DealStage.flop
    deck := [cA, cB]
    card_provenance := [("a", exProv cA), ("b", exProv cB)] }

/-- Sample per-player data: active, no cards yet. -/
def exUTD : UserTableData :=
  { cards := [], current_total_bet := 0
    player_action := PlayerAction.active, joined_round := 0 }

/-- A two-player table in the Opening stage with dealer at seat 0, both
players active, five cards in the deck. -/
def c6Table : Table :=
  { exTable with
    deal_stage := DealStage.opening
    dealer_position := 0
    seats := [SeatStatus.occupied 10, SeatStatus.occupied 20]
    user_table_data := [(10, exUTD), (20, exUTD)]
    deck := [cA, cB, cC, cD, cE] }

/-- CardIter::new(cards, k): the k-element combinations of a card list in slice
order (the iterator helper in poker/core is not among the provided sources;
it enumerates every size-k combination). -/
def combosK {α : Type} : Nat → List α → List (List α)
  | 0, _ => [[]]
  | _+1, [] => []
  | k+1, x :: xs => (combosK k xs).map (fun c => x :: c) ++ combosK (k+1) xs

/-- The max-accumulating step of get_best_omaha_hand: replace the best rank
exactly when the new rank is strictly greater (showdown.rs lines 381-385). -/
def rankStep (best r : Rank) : Rank :=
  if Rank.ltb best r then r else best

/-- Table::get_best_omaha_hand (showdown.rs lines 349-394), with the external
five-card evaluator Hand::rank_five as a parameter: guard the card counts,
then fold over every combination of exactly 2 hole cards and exactly 3
community cards, keeping the larger rank, starting from HighCard(0). -/
def bestOmahaRank (rankFive : List Card → Rank)
    (holeCards communityCards : List Card) : Except GameError Rank :=
  if holeCards.length < 2 then Except.error GameError.other
  else if communityCards.length < 3 then Except.error GameError.other
  else Except.ok ((combosK 2 holeCards).foldl (fun best hc =>
    (combosK 3 communityCards).foldl (fun best cc =>
      rankStep best (rankFive (hc ++ cc))) best) (Rank.highCard 0))

/-- Modelled from the spec: whether a game type belongs to the pot-limit
family (PotLimit, PotLimitOmaha4, PotLimitOmaha5); the bet validator is not
among the provided sources (spec section 4.4). -/
def isPotLimitFamily : GameType → Bool
  | GameType.potLimit _ => true
  | GameType.potLimitOmaha4 _ => true
  | GameType.potLimitOmaha5 _ => true
  | _ => false

/-- Modelled from the spec: the Rule-of-Three maximum raise-to amount for
pot-limit games, current_bet_to_match + (confirmed_pot + uncommitted_round
+ amount_to_call) (spec sections 4.4 and 8 P7). -/
def potLimitMaxRaise (currentBetToMatch confirmedPot uncommittedRound
    amountToCall : Nat) : Nat :=
  currentBetToMatch + (confirmedPot + uncommittedRound + amountToCall)

/-- Modelled from the spec: acceptance of a Raised(x) bet in a pot-limit game,
stack permitting: accepted iff the game is in the pot-limit family and x does
not exceed the Rule-of-Three maximum (the player stack is a separate upper
bound per spec section 4.4 and is carried as a hypothesis). -/
def potLimitRaiseAccepted (gt : GameType)
    (currentBetToMatch confirmedPot uncommittedRound amountToCall x : Nat) : Bool :=
  isPotLimitFamily gt && decide (x ≤ potLimitMaxRaise currentBetToMatch
    confirmedPot uncommittedRound amountToCall)

/-- A ranked showdown hand (showdown.rs line 18): player principal, evaluated
best hand (a card list stands for the Hand type), rank, and all cards used. -/
structure RankedHand where
  pid : Nat
  hand : List Card
  rank : Rank
  cards : List Card
deriving DecidableEq, Repr

/-- Users::get (the user crate is not among the provided sources): the first
record with the given wallet principal. -/
def findUser (us : List UserRec) (p : Nat) : Option UserRec :=
  us.find? (fun u => u.principal_id == p)

/-- Users::get_mut followed by User::deposit: add amt to the balance of the
first record with the given principal, returning the updated record (the
clone the source pushes into winners) and the updated list; none when the
player is missing (GameError::PlayerNotFound in the source). -/
def depositUser (p : Nat) (amt : Nat) : List UserRec → Option (UserRec × List UserRec)
  | [] => none
  | u :: rest =>
    if u.principal_id = p then
      some ({ u with balance := u.balance + amt },
        { u with balance := u.balance + amt } :: rest)
    else (depositUser p amt rest).map (fun r => (r.1, u :: r.2))

/-- HashMap entry(p).or_insert(0) += v on an association list (the
winners_total_amount accumulation of showdown.rs lines 101 and 178). -/
def addToTotals (p v : Nat) : List (Nat × Nat) → List (Nat × Nat)
  | [] => [(p, v)]
  | e :: rest => if e.1 = p then (e.1, e.2 + v) :: rest else e :: addToTotals p v rest

/-- HashMap get with default 0 (the unwrap_or(&0) reads of showdown.rs). -/
def lookupTotal (m : List (Nat × Nat)) (p : Nat) : Nat :=
  match m.find? (fun e => e.1 == p) with
  | some e => e.2
  | none => 0

/-- The tied-winner deposit loop (showdown.rs lines 96-103 and 169-182):
credit each tied player the individual share, accumulating the winner totals
and the per-pot individual shares, and collecting the updated user records in
order (the winners list of the main pot); stops at the first missing player. -/
def depositTied (share : Nat) : List Nat → List UserRec → List (Nat × Nat) →
    List (Nat × Nat) →
    Option GameError × List UserRec × List (Nat × Nat) × List (Nat × Nat) × List UserRec
  | [], us, tot, shares => (none, us, tot, shares, [])
  | p :: rest, us, tot, shares =>
    match depositUser p share us with
    | none => (some GameError.playerNotFound, us, tot, shares, [])
    | some (u2, us2) =>
      match depositTied share rest us2 (addToTotals p share tot)
          (addToTotals p share shares) with
      | (e, usf, totf, sharesf, ws) => (e, usf, totf, sharesf, u2 :: ws)

/-- The log-hands construction (showdown.rs lines 107-115 and 196-204): for
each ranked hand, look up the user name and the amount won (default 0). -/
def buildLogHands (us : List UserRec) (shares : List (Nat × Nat)) :
    List RankedHand → Option (List (String × List Card × Nat))
  | [] => some []
  | rh :: rest =>
    match findUser us rh.pid with
    | none => none
    | some u =>
      (buildLogHands us shares rest).map
        (fun l => (u.user_name, rh.cards, lookupTotal shares rh.pid) :: l)

/-- The top-rank-tied player principals of a ranked-hand list headed by first:
the players whose rank equals the head rank (showdown.rs lines 86-91 and
158-163). -/
def tiedOf (ranked : List RankedHand) (first : RankedHand) : List Nat :=
  (ranked.filter (fun rh => rh.rank == first.rank)).map (fun rh => rh.pid)

/-- The ranked hands eligible for a side pot (showdown.rs lines 53-57): those
whose player is among the pot's user_principals. -/
def sidePotInner (ranked : List RankedHand) (sp : SidePot) : List RankedHand :=
  ranked.filter (fun rh => sp.user_principals.contains rh.pid)

/-- The top-rank-tied eligible players of a side pot: the tied group of the
eligible ranked hands, empty when no hand is eligible. -/
def sidePotTied (ranked : List RankedHand) (sp : SidePot) : List Nat :=
  match (sidePotInner ranked sp).head? with
  | some first => tiedOf (sidePotInner ranked sp) first
  | none => []

/-- The amount a player is credited from one rake-free side pot: the integer
share confirmed_pot / n for the n tied top-ranked eligible players, 0 for
everyone else. -/
def potCredit (ranked : List RankedHand) (sp : SidePot) (q : Nat) : Nat :=
  if q ∈ sidePotTied ranked sp
  then sp.confirmed_pot / (sidePotTied ranked sp).length else 0

/-- The total amount a player is credited from a list of rake-free side pots. -/
def creditsOf (ranked : List RankedHand) (sps : List SidePot) (q : Nat) : Nat :=
  (sps.map (fun sp => potCredit ranked sp q)).sum

/-- The total rake-free showdown payout of a player: the credits from every
side pot (as confirmed on entry to showdown) plus the integer share of the
main pot when the player is among its tied top-ranked winners. -/
def totalPayout (t : Table) (ranked : List RankedHand) (first : RankedHand)
    (q : Nat) : Nat :=
  creditsOf ranked (t.side_pots.map (fun sp =>
      if sp.confirmed_pot < sp.pot then SidePot.confirmPot sp else sp)) q
    + (if q ∈ tiedOf ranked first
       then t.pot / (tiedOf ranked first).length else 0)

/-- Whether rake applies (showdown.rs lines 61-63 and 134-136): enable_rake is
Some(true) and the currency is Real. -/
def Table.rakeApplies (t : Table) : Bool :=
  (t.config.enable_rake == some true)
    && (match t.config.currency_type with
        | CurrencyType.real _ => true
        | CurrencyType.fake => false)

/-- Modelled from the spec: Table::number_of_players (not among the provided
sources): the number of occupied seats. -/
def Table.numberOfPlayers (t : Table) : Nat :=
  (occupiedPrincipals t.seats).length

/-- Modelled from the spec: Table::all_players_folded (not among the provided
sources): all but at most one seated player have folded (spec section 4.5,
early termination; used only to muck the logged hands). -/
def Table.allPlayersFolded (t : Table) : Bool :=
  ((occupiedPrincipals t.seats).filter (fun p =>
    match lookupUTD t.user_table_data p with
    | some d => !(d.player_action == PlayerAction.folded)
    | none => false)).length ≤ 1

/-- Modelled from the spec: Table::rotate_dealer (not among the provided
sources): the dealer button moves one seat to the left (spec section 4.5);
the spec describes no failure for the rotation, so it is total here. -/
def Table.rotateDealer (t : Table) : Table :=
  { t with dealer_position :=
    if t.seats.isEmpty then 0 else (t.dealer_position + 1) % t.seats.length }

/-- Table::confirm_side_pots (showdown.rs lines 231-237): confirm each side
pot whose pending accumulator exceeds its confirmed total. -/
def Table.confirmSidePots (t : Table) : Table :=
  { t with side_pots := t.side_pots.map (fun sp =>
      if sp.confirmed_pot < sp.pot then SidePot.confirmPot sp else sp) }

/-- Table::set_sorted_users (showdown.rs lines 249-266) with the ranked hands
passed in (the source recomputes get_ranked_hands, whose inputs the
distribution does not change): each ranked hand with the amount it won. -/
def Table.setSortedUsers (t : Table) (ranked : List RankedHand)
    (winTot : List (Nat × Nat)) : Table :=
  { t with sorted_users := some (ranked.map (fun rh =>
      UserCards.mk rh.pid rh.hand rh.rank (lookupTotal winTot rh.pid))) }

/-- One iteration of the side-pot distribution loop of Table::showdown
(showdown.rs lines 52-130), over a snapshot of the side pot (the source
iterates a clone, so rake deduction on the pot does not persist): filter the
eligible ranked hands, deduct rake via the external formula rakeFn
(Rake::calculate_rake is not among the provided sources), credit each
top-rank-tied eligible player the integer share of the confirmed pot, and log
the side-pot hands (mucked when all but one player folded). -/
def processSidePot (rakeFn : Nat → Nat → Nat) (ranked : List RankedHand)
    (sp : SidePot) (t : Table) (winTot : List (Nat × Nat)) :
    Option GameError × Table × List (Nat × Nat) :=
  let inner := sidePotInner ranked sp
  let rakeAmt := if t.rakeApplies then rakeFn sp.confirmed_pot t.numberOfPlayers else 0
  let potConf := sp.confirmed_pot - rakeAmt
  let t1 := if t.rakeApplies then
      { t with rake_total := some (t.rake_total.getD 0 + rakeAmt) } else t
  let afterDeposit : Option GameError × Table × List (Nat × Nat) × List (Nat × Nat) :=
    match inner.head? with
    | some first =>
      let tied := tiedOf inner first
      let share := potConf / tied.length
      match depositTied share tied t1.users winTot [] with
      | (e, us2, tot2, shares2, _) => (e, { t1 with users := us2 }, tot2, shares2)
    | none => (none, t1, winTot, ([] : List (Nat × Nat)))
  match afterDeposit with
  | (some e, t2, tot2, _) => (some e, t2, tot2)
  | (none, t2, tot2, shares2) =>
    match buildLogHands t2.users shares2 inner with
    | none => (some GameError.playerNotFound, t2, tot2)
    | some lh =>
      let lh2 := if t2.allPlayersFolded
        then lh.map (fun e => (e.1, ([] : List Card), e.2.2)) else lh
      (none, t2.logAction none (ActionType.playersHandsRankedSidePot lh2), tot2)

/-- The fold of the side-pot loop over all side pots. -/
def processSidePots (rakeFn : Nat → Nat → Nat) (ranked : List RankedHand) :
    List SidePot → Table → List (Nat × Nat) →
    Option GameError × Table × List (Nat × Nat)
  | [], t, tot => (none, t, tot)
  | sp :: rest, t, tot =>
    match processSidePot rakeFn ranked sp t tot with
    | (some e, t2, tot2) => (some e, t2, tot2)
    | (none, t2, tot2) => processSidePots rakeFn ranked rest t2 tot2

/-- The distribution part of Table::showdown (showdown.rs lines 27-228), with
the ranked hands passed in (get_ranked_hands depends on the external hand
evaluator) and the rake formula as a parameter: log the stage, rotate the
dealer, confirm the side pots, distribute side pots then the main pot — the
top-rank-tied players each receive the integer share pot / n — record winners
and sorted users, and clear the pot and side pots. -/
def Table.showdownDist (t : Table) (rakeFn : Nat → Nat → Nat)
    (ranked : List RankedHand) : Option GameError × Table :=
  let tA := t.logAction none (ActionType.stage t.deal_stage)
  let t1 := tA.rotateDealer
  let t1 := t1.confirmSidePots
  match processSidePots rakeFn ranked t1.side_pots t1 [] with
    | (some e, t2, _) => (some e, t2)
    | (none, t2, winTot) =>
      let rakeAmt := if t2.rakeApplies then rakeFn t2.pot t2.numberOfPlayers else 0
      let t2 := if t2.rakeApplies then
          { t2 with pot := t2.pot - rakeAmt,
                    rake_total := some (t2.rake_total.getD 0 + rakeAmt) } else t2
      match ranked.head? with
      | some first =>
        let tied := tiedOf ranked first
        let share := t2.pot / tied.length
        match depositTied share tied t2.users winTot [] with
        | (some e, us3, _, _, _) => (some e, { t2 with users := us3 })
        | (none, us3, winTot2, _, ws) =>
          let t3 := { t2 with users := us3, winners := some ws }
          let t3 := t3.setSortedUsers ranked winTot2
          (none, { t3 with pot := 0, side_pots := [] })
      | none =>
        match buildLogHands t2.users [] ranked with
        | none => (some GameError.playerNotFound, t2)
        | some lh =>
          let lh2 := if t2.allPlayersFolded
            then lh.map (fun e => (e.1, ([] : List Card), e.2.2)) else lh
          let t3 := t2.logAction none (ActionType.playersHandsRankedMainPot lh2)
          let t3 := t3.setSortedUsers ranked winTot
          (none, { t3 with pot := 0, side_pots := [] })

/-- Two sample users with balance 1000 each. -/
def exUsers : List UserRec :=
  [{ principal_id := 1, balance := 1000, user_name := "p1" },
   { principal_id := 2, balance := 1000, user_name := "p2" }]

/-- Two ranked hands with the same rank (a split pot). -/
def c4Ranked : List RankedHand :=
  [{ pid := 1, hand := [], rank := Rank.pair 5, cards := [] },
   { pid := 2, hand := [], rank := Rank.pair 5, cards := [] }]

/-- A showdown table: two seated players, pot of 3 indivisible chips, no side
pots, rake disabled. -/
def c4Table : Table :=
  { exTable with
    deal_stage := DealStage.showdown
    seats := [SeatStatus.occupied 1, SeatStatus.occupied 2]
    user_table_data := [(1, exUTD), (2, exUTD)]
    users := exUsers
    pot := 3 }

/-- The same showdown table with one confirmed side pot of 5 chips for which
both players are eligible. -/
def c4sTable : Table :=
  { c4Table with
    side_pots := [{ user_principals := [1, 2], pot := 5, confirmed_pot := 5 }] }

theorem count_set_aux {α : Type} [DecidableEq α] (l : List α) (i : Nat) (a x : α)
    (h : i < l.length) :
    (l.set i a).count x = l.count x - (if l[i] = x then 1 else 0)
      + (if a = x then 1 else 0) := by
  have := List.count_set a x l i h
  simpa using this

theorem count_indicator_le {α : Type} [DecidableEq α] (l : List α) (i : Nat) (x : α)
    (h : i < l.length) : (if l[i] = x then 1 else 0) ≤ l.count x := by
  by_cases hx : l[i] = x
  · simp only [hx, if_pos rfl]
    have : x ∈ l := hx ▸ List.getElem_mem h
    exact List.count_pos_iff.mpr this
  · simp [hx]

theorem count_swapList {α : Type} [DecidableEq α] (l : List α) (i j : Nat) (x : α) :
    (swapList l i j).count x = l.count x := by
  unfold swapList
  cases hi : l[i]? with
  | none => simp
  | some a =>
    cases hj : l[j]? with
    | none => simp
    | some b =>
      simp only []
      have hil : i < l.length := by
        by_contra hc
        rw [List.getElem?_eq_none (by omega)] at hi
        exact Option.noConfusion hi
      have hjl : j < l.length := by
        by_contra hc
        rw [List.getElem?_eq_none (by omega)] at hj
        exact Option.noConfusion hj
      have hia : l[i] = a := by
        have := List.getElem?_eq_getElem hil
        rw [hi] at this
        exact (Option.some_inj.mp this).symm
      have hjb : l[j] = b := by
        have := List.getElem?_eq_getElem hjl
        rw [hj] at this
        exact (Option.some_inj.mp this).symm
      have h1 : (l.set i b).count x = l.count x - (if l[i] = x then 1 else 0)
          + (if b = x then 1 else 0) := count_set_aux l i b x hil
      have hjl2 : j < (l.set i b).length := by simpa using hjl
      have h2 : ((l.set i b).set j a).count x
          = (l.set i b).count x - (if (l.set i b)[j] = x then 1 else 0)
            + (if a = x then 1 else 0) := count_set_aux (l.set i b) j a x hjl2
      have hget : (l.set i b)[j] = if i = j then b else l[j] := by
        by_cases hij : i = j
        · subst hij
          simp [List.getElem_set]
        · simp [List.getElem_set, hij]
      have hle1 : (if l[i] = x then 1 else 0) ≤ l.count x := count_indicator_le l i x hil
      have hle2 : (if (l.set i b)[j] = x then 1 else 0) ≤ (l.set i b).count x :=
        count_indicator_le (l.set i b) j x hjl2
      have hindJ : (if (l.set i b)[j] = x then 1 else 0) = (if l[j] = x then 1 else 0) := by
        rw [hget]
        by_cases hij : i = j
        · subst hij
          rw [if_pos rfl, hjb]
        · rw [if_neg hij]
      have ea : (if a = x then 1 else 0) = (if l[i] = x then 1 else 0) := by rw [hia]
      have eb : (if b = x then 1 else 0) = (if l[j] = x then 1 else 0) := by rw [hjb]
      rw [h2, hindJ, h1, ea, eb]
      rw [hindJ, h1, eb] at hle2
      omega

theorem swapList_perm {α : Type} [DecidableEq α] (l : List α) (i j : Nat) :
    (swapList l i j).Perm l :=
  List.perm_iff_count.mpr (fun x => count_swapList l i j x)

theorem shuffleIter_perm (stream : Nat → Nat) (fuel : Nat) :
    ∀ k pos i cards d, FlatDeck.shuffleIter stream fuel k pos i cards = some d →
      List.Perm d cards := by
  intro k
  induction k with
  | zero =>
    intro pos i cards d h
    simp only [FlatDeck.shuffleIter] at h
    exact (Option.some_inj.mp h) ▸ List.Perm.refl _
  | succ k ih =>
    intro pos i cards d h
    simp only [FlatDeck.shuffleIter] at h
    cases hu : FlatDeck.unbiasedIndexLoop stream (cards.length - i) pos fuel with
    | none => rw [hu] at h; exact Option.noConfusion h
    | some p =>
      rw [hu] at h
      obtain ⟨off, pos2⟩ := p
      have hp : List.Perm d (swapList cards i (i + off)) := ih pos2 (i+1) _ d h
      exact hp.trans (swapList_perm cards i (i + off))

theorem shuffle_perm (stream : Nat → Nat) (fuel : Nat) (cards d : List Card)
    (h : FlatDeck.shuffle stream fuel cards = some d) : List.Perm d cards := by
  unfold FlatDeck.shuffle at h
  split at h
  · exact (Option.some_inj.mp h) ▸ List.Perm.refl _
  · exact shuffleIter_perm stream fuel _ 0 0 cards d h

theorem dealMany_append_perm : ∀ (n : Nat) (d : List Card),
    List.Perm ((FlatDeck.dealMany n d).1 ++ (FlatDeck.dealMany n d).2) d := by
  intro n
  induction n with
  | zero => intro d; simp [FlatDeck.dealMany]
  | succ n ih =>
    intro d
    cases hd : d.getLast? with
    | none => simp [FlatDeck.dealMany, hd]
    | some c =>
      simp only [FlatDeck.dealMany, hd]
      have hsplit : d.dropLast ++ [c] = d := List.dropLast_append_getLast? c hd
      have h1 : List.Perm
          (c :: ((FlatDeck.dealMany n d.dropLast).1 ++ (FlatDeck.dealMany n d.dropLast).2))
          (c :: d.dropLast) := List.Perm.cons c (ih d.dropLast)
      have h2 : List.Perm (c :: d.dropLast) (d.dropLast ++ [c]) := by
        have := @List.perm_append_comm Card [c] d.dropLast
        simpa using this
      have h3 : List.Perm (d.dropLast ++ [c]) d := by rw [hsplit]
      simpa using h1.trans (h2.trans h3)

theorem unbiasedIndexLoop_some_iff (stream : Nat → Nat) (upper : Nat) :
    ∀ fuel pos v nextPos,
      (FlatDeck.unbiasedIndexLoop stream upper pos fuel = some (v, nextPos) ↔
        ∃ k, k < fuel ∧
          (∀ j, j < k → 256 - 256 % upper ≤ stream (pos + j) % 256) ∧
          stream (pos + k) % 256 < 256 - 256 % upper ∧
          v = stream (pos + k) % 256 % upper ∧
          nextPos = pos + k + 1) := by
  intro fuel
  induction fuel with
  | zero =>
    intro pos v nextPos
    simp [FlatDeck.unbiasedIndexLoop]
  | succ fuel ih =>
    intro pos v nextPos
    simp only [FlatDeck.unbiasedIndexLoop]
    by_cases hb : stream pos % 256 < 256 - 256 % upper
    · rw [if_pos hb]
      constructor
      · intro h
        obtain ⟨hv, hn⟩ := Prod.mk.injEq _ _ _ _ ▸ Option.some_inj.mp h
        refine ⟨0, by omega, by omega, by simpa using hb, by simpa using hv.symm, by omega⟩
      · rintro ⟨k, _, hrej, hacc, hv, hn⟩
        have hk0 : k = 0 := by
          by_contra hk
          have := hrej 0 (by omega)
          simp at this
          omega
        subst hk0
        simp only [Nat.add_zero] at hacc hv hn
        rw [hv, hn]
    · rw [if_neg hb]
      rw [ih (pos + 1) v nextPos]
      constructor
      · rintro ⟨k, hk, hrej, hacc, hv, hn⟩
        refine ⟨k + 1, by omega, ?_, ?_, ?_, by omega⟩
        · intro j hj
          cases j with
          | zero => simpa using Nat.le_of_not_lt hb
          | succ j =>
            have := hrej j (by omega)
            have harr : pos + 1 + j = pos + (j + 1) := by omega
            rw [harr] at this
            exact this
        · have harr : pos + 1 + k = pos + (k + 1) := by omega
          rw [harr] at hacc
          exact hacc
        · have harr : pos + 1 + k = pos + (k + 1) := by omega
          rw [harr] at hv
          exact hv
      · rintro ⟨k, hk, hrej, hacc, hv, hn⟩
        have hk0 : k ≠ 0 := by
          intro h0
          subst h0
          simp at hacc
          omega
        refine ⟨k - 1, by omega, ?_, ?_, ?_, by omega⟩
        · intro j hj
          have := hrej (j + 1) (by omega)
          have harr : pos + (j + 1) = pos + 1 + j := by omega
          rw [harr] at this
          exact this
        · have harr : pos + k = pos + 1 + (k - 1) := by omega
          rw [harr] at hacc
          exact hacc
        · have harr : pos + k = pos + 1 + (k - 1) := by omega
          rw [harr] at hv
          exact hv

/-- C7: for 1 ≤ upper ≤ 256 and any PRNG byte stream, unbiased_index draws one
byte b = stream pos % 256 at a time, rejects b exactly when
b ≥ 256 - (256 mod upper), returns b mod upper for the first accepted byte
(advancing the stream past it), and every returned value is below upper. -/
theorem C7_unbiased_index_rejection_sampling (stream : Nat → Nat)
    (upper pos fuel v nextPos : Nat) (h1 : 1 ≤ upper) (h2 : upper ≤ 256) :
    (FlatDeck.unbiasedIndexLoop stream upper pos fuel = some (v, nextPos) ↔
      ∃ k, k < fuel ∧
        (∀ j, j < k → 256 - 256 % upper ≤ stream (pos + j) % 256) ∧
        stream (pos + k) % 256 < 256 - 256 % upper ∧
        v = stream (pos + k) % 256 % upper ∧
        nextPos = pos + k + 1) ∧
    (FlatDeck.unbiasedIndexLoop stream upper pos fuel = some (v, nextPos) →
      v < upper) := by
  constructor
  · exact unbiasedIndexLoop_some_iff stream upper fuel pos v nextPos
  · intro h
    obtain ⟨k, _, _, _, hv, _⟩ :=
      (unbiasedIndexLoop_some_iff stream upper fuel pos v nextPos).mp h
    rw [hv]
    exact Nat.mod_lt _ (by omega)

/-- Witness for C7 at a concrete input: upper = 3 (limit 255), the stream
produces the rejected byte 255 and then the accepted byte 7, so the result
is 7 mod 3 = 1 at next stream position 2, and 1 < 3. -/
theorem C7_unbiased_index_rejection_sampling_witness :
    FlatDeck.unbiasedIndexLoop (fun n => if n = 0 then 255 else 7) 3 0 2
        = some (1, 2) ∧ (1 : Nat) < 3 := by
  have h : FlatDeck.unbiasedIndexLoop (fun n => if n = 0 then 255 else 7) 3 0 2
      = some (1, 2) := by decide
  exact ⟨h, (C7_unbiased_index_rejection_sampling (fun n => if n = 0 then 255 else 7)
    3 0 2 1 2 (by decide) (by decide)).2 h⟩

/-- C2: FlatDeck::new builds the canonical 52 distinct cards in sorted order
(length 52, no duplicates, strictly ascending canonical index), shuffling only
swaps cards in place so any produced deck is a permutation of the canonical 52,
and at any point of dealing from a deck that is a permutation of the canonical
52, the dealt cards together with the remaining deck still form a permutation
of the canonical 52. -/
theorem C2_deck_is_permutation_of_canonical :
    (canonicalCards.length = 52 ∧ canonicalCards.Nodup ∧
      List.Pairwise (fun a b => a.idx < b.idx) canonicalCards) ∧
    (∀ stream fuel d, FlatDeck.new stream fuel = some d →
      List.Perm d canonicalCards) ∧
    (∀ d n, List.Perm d canonicalCards →
      List.Perm ((FlatDeck.dealMany n d).1 ++ (FlatDeck.dealMany n d).2)
        canonicalCards) := by
  refine ⟨⟨by decide, by decide, by decide⟩, ?_, ?_⟩
  · intro stream fuel d h
    exact shuffle_perm stream fuel canonicalCards d h
  · intro d n h
    exact (dealMany_append_perm n d).trans h

/-- Witness for C2 at concrete inputs: the all-zero byte stream with fuel 1
shuffles the canonical deck to itself (every drawn offset is 0), and dealing
five cards from the canonical deck keeps dealt plus remaining a permutation of
the canonical 52. -/
theorem C2_deck_is_permutation_of_canonical_witness :
    (∃ d, FlatDeck.new (fun _ => 0) 1 = some d ∧ List.Perm d canonicalCards) ∧
    List.Perm ((FlatDeck.dealMany 5 canonicalCards).1
      ++ (FlatDeck.dealMany 5 canonicalCards).2) canonicalCards := by
  have h : FlatDeck.new (fun _ => 0) 1 = some canonicalCards := by decide
  exact ⟨⟨canonicalCards, h,
      C2_deck_is_permutation_of_canonical.2.1 (fun _ => 0) 1 canonicalCards h⟩,
    C2_deck_is_permutation_of_canonical.2.2 canonicalCards 5 (List.Perm.refl _)⟩

/-- C3 fails on the code: dealing the flop from a five-card deck burns the tail
card cE and deals cD, cC, cB to the community; the deal succeeds and the
community card cD ends with dealt_at_stage = some Flop, but the burned card cE
keeps dealt_at_stage = none — burn_card never touches the provenance ledger. -/
theorem C3_burned_card_keeps_no_stage_counterexample :
    (Table.dealFlopCards flopTable).1 = none ∧
    provStageOf (Table.dealFlopCards flopTable).2.card_provenance cE = none ∧
    provStageOf (Table.dealFlopCards flopTable).2.card_provenance cD
      = some DealStage.flop := by
  refine ⟨by decide, by decide, by decide⟩

/-- C3 amended: burn_card only removes the top card from the deck; it performs
no provenance update at all, so a burned card keeps dealt_to = None and
dealt_at_stage = None (only hole and community cards have their provenance
record set). -/
theorem C3_burn_card_updates_no_provenance (t : Table) :
    (t.burnCard).2
        = (if t.deck.isEmpty then t else { t with deck := t.deck.dropLast }) ∧
    (t.burnCard).2.card_provenance = t.card_provenance := by
  unfold Table.burnCard
  cases h : t.deck.getLast? with
  | none =>
    have he : t.deck = [] := List.getLast?_eq_none_iff.mp h
    refine ⟨?_, rfl⟩
    rw [if_pos (by simp [he])]
  | some c =>
    have hne : t.deck.isEmpty = false := by
      cases hd : t.deck.isEmpty
      · rfl
      · rw [List.isEmpty_iff.mp hd] at h
        simp at h
    refine ⟨?_, rfl⟩
    rw [if_neg (by simpa using hne)]

/-- C8 fails on the code: StorableTable has no rake fields, and restoring sets
rake_config and rake_total to None, so a table with rake_total = some 700 does
not survive the round trip. -/
theorem C8_round_trip_drops_rake_counterexample :
    (Table.toStorable { exTable with rake_total := some 700 }).toTable
        ≠ { exTable with rake_total := some 700 } ∧
    ((Table.toStorable { exTable with rake_total := some 700 }).toTable).rake_total
        = none ∧
    ({ exTable with rake_total := some 700 } : Table).rake_total = some 700 := by
  refine ⟨by decide, rfl, rfl⟩

/-- C8 amended: the round trip Table → StorableTable → Table preserves every
stored field and resets exactly the runtime-only fields timer (to None) and
notifications (to empty) together with the rake fields rake_config and
rake_total (to None), which are not part of the stored form. -/
theorem C8_round_trip_resets_runtime_and_rake_fields (t : Table) :
    (t.toStorable).toTable =
      { t with timer := none, notifications := [],
               rake_config := none, rake_total := none } := rfl

/-- C10: the PublicTable conversion copies the complete user_table_data map
from the table — every seated player's hole cards included — so the public
states of two tables that differ only in user_table_data (for example only in
one player's hole cards) differ. -/
theorem C10_public_table_exposes_hole_cards :
    (∀ t : Table, (t.toPublicTable).user_table_data = t.user_table_data) ∧
    (∀ (t : Table) (d1 d2 : List (Nat × UserTableData)), d1 ≠ d2 →
      Table.toPublicTable { t with user_table_data := d1 }
        ≠ Table.toPublicTable { t with user_table_data := d2 }) := by
  refine ⟨fun t => rfl, ?_⟩
  intro t d1 d2 hne heq
  exact hne (congrArg PublicTable.user_table_data heq)

/-- Witness for C10 at a concrete input: two tables identical except that
player 1 holds the ace of spades in one and the king of spades in the other
have different public states. -/
theorem C10_public_table_exposes_hole_cards_witness :
    Table.toPublicTable { exTable with user_table_data :=
        [(1, { exUTD with cards := [⟨Value.ace, Suit.spade⟩] })] }
      ≠ Table.toPublicTable { exTable with user_table_data :=
        [(1, { exUTD with cards := [⟨Value.king, Suit.spade⟩] })] } :=
  C10_public_table_exposes_hole_cards.2 exTable
    [(1, { exUTD with cards := [⟨Value.ace, Suit.spade⟩] })]
    [(1, { exUTD with cards := [⟨Value.king, Suit.spade⟩] })] (by decide)

/-- C9 fails on the code: deal_cards on a Flop-stage table whose deck holds
only two cards returns NoCardsLeft, yet the resulting state differs from the
input — the first community card dealt before the failure stays in place. -/
theorem C9_failed_deal_mutates_state_counterexample :
    (Table.dealCards failTable false).1 = some GameError.noCardsLeft ∧
    (Table.dealCards failTable false).2 ≠ failTable ∧
    (Table.dealCards failTable false).2.community_cards
      = failTable.community_cards ++ [cA] := by
  refine ⟨by decide, by decide, by decide⟩

/-- C9 amended: deal_cards is not atomic on failure. On any Flop-stage table
with no side pots and exactly two cards left, the call fails with NoCardsLeft
partway through, and the stage action-log entry, the community card dealt
before the failure, its provenance update, and the deck pops all remain in the
returned state. -/
theorem C9_deal_cards_failure_keeps_partial_state (t : Table) (x y : Card)
    (hdeck : t.deck = [x, y]) (hstage : t.deal_stage = DealStage.flop)
    (hsp : t.side_pots = []) :
    (t.dealCards false).1 = some GameError.noCardsLeft ∧
    (t.dealCards false).2.community_cards = t.community_cards ++ [x] ∧
    (t.dealCards false).2.action_logs
      = t.action_logs ++ [⟨none, ActionType.stage DealStage.flop⟩] ∧
    (t.dealCards false).2.deck = [] ∧
    (t.dealCards false).2.card_provenance
      = updateProvList t.round_ticker x none DealStage.flop t.card_provenance := by
  obtain ⟨i1, cf, se, cc, dk, pt, sp, st, ds, b1, b2, b3, b4, d1, d2, w1, s1,
    a1, u1, h1, h2, l1, l2, i2, r1, l3, u2, t1, n1, q1, r2, r3, r4, c1⟩ := t
  simp only at hdeck hstage hsp
  subst hdeck hstage hsp
  refine ⟨rfl, rfl, rfl, rfl, rfl⟩

/-- Witness for C9 amended at the concrete failTable (deck [cA, cB], Flop
stage, no side pots). -/
theorem C9_deal_cards_failure_keeps_partial_state_witness :
    (Table.dealCards failTable false).1 = some GameError.noCardsLeft ∧
    (Table.dealCards failTable false).2.community_cards
      = failTable.community_cards ++ [cA] :=
  ⟨(C9_deal_cards_failure_keeps_partial_state failTable cA cB rfl rfl rfl).1,
   (C9_deal_cards_failure_keeps_partial_state failTable cA cB rfl rfl rfl).2.1⟩

theorem lookupUTD_cons (k : Nat) (d : UserTableData)
    (l : List (Nat × UserTableData)) (q : Nat) :
    lookupUTD ((k, d) :: l) q = if k = q then some d else lookupUTD l q := by
  by_cases h : k = q <;> simp [lookupUTD, List.find?_cons, h]

theorem lookupUTD_pushCardUTD (p q : Nat) (c : Card)
    (m : List (Nat × UserTableData)) :
    lookupUTD (pushCardUTD p c m) q =
      if q = p then (lookupUTD m p).map (fun d => { d with cards := d.cards ++ [c] })
      else lookupUTD m q := by
  induction m with
  | nil =>
    by_cases h : q = p <;> simp [pushCardUTD, lookupUTD, h]
  | cons e rest ih =>
    obtain ⟨k, d⟩ := e
    by_cases hk : k = p
    · subst hk
      by_cases hq : q = k
      · subst hq
        simp [pushCardUTD, lookupUTD_cons]
      · have hq2 : ¬ k = q := fun hh => hq hh.symm
        simp [pushCardUTD, lookupUTD_cons, hq, hq2]
    · have hk2 : ¬ p = k := fun hh => hk hh.symm
      by_cases hq : q = k
      · subst hq
        simp [pushCardUTD, hk, lookupUTD_cons, hk2]
      · have hq2 : ¬ k = q := fun hh => hq hh.symm
        simp [pushCardUTD, hk, lookupUTD_cons, hq2, ih]

theorem isActive_eq_actOf (t : Table) (q : Nat) :
    isActive t q = (match actOf t q with
      | some a => !(a == PlayerAction.sittingOut)
      | none => false) := by
  unfold isActive actOf
  cases lookupUTD t.user_table_data q <;> rfl

theorem sittingOut_eq_not_isActive (t : Table) (p : Nat) :
    (match lookupUTD t.user_table_data p with
      | some d => d.player_action == PlayerAction.sittingOut
      | none => true) = !(isActive t p) := by
  unfold isActive
  cases lookupUTD t.user_table_data p with
  | none => rfl
  | some d => simp

theorem dealPass_spec (ps : List Nat) : ∀ (t t' : Table), ps.Nodup →
    t.dealPass ps = (none, t') →
    (∀ q, actOf t' q = actOf t q) ∧
    (∀ q, q ∈ ps → isActive t q = true →
        cardsLen t' q = (cardsLen t q).map (fun n => n + 1)) ∧
    (∀ q, q ∉ ps → cardsLen t' q = cardsLen t q) ∧
    (∀ q, isActive t q = false → cardsLen t' q = cardsLen t q) := by
  induction ps with
  | nil =>
    intro t t' _ h
    have ht : t = t' := by
      simpa [Table.dealPass] using h
    subst ht
    exact ⟨fun q => rfl, fun q hq => absurd hq (List.not_mem_nil q),
      fun q _ => rfl, fun q _ => rfl⟩
  | cons p rest ih =>
    intro t t' hnd h
    have hnd2 : rest.Nodup := (List.nodup_cons.mp hnd).2
    have hpnotin : p ∉ rest := (List.nodup_cons.mp hnd).1
    rw [Table.dealPass] at h
    by_cases hact : isActive t p = true
    · rw [if_neg (by rw [sittingOut_eq_not_isActive, hact]; simp)] at h
      cases hdk : t.deck.getLast? with
      | none =>
        rw [hdk] at h
        exact absurd (congrArg Prod.fst h) (by simp)
      | some card =>
        rw [hdk] at h
        set t3 : Table :=
          { t with
            deck := t.deck.dropLast
            card_provenance :=
              updateProvList t.round_ticker card (some p) DealStage.opening
                t.card_provenance
            user_table_data := pushCardUTD p card t.user_table_data } with ht3
        have hstep : Table.dealPass t3 rest = (none, t') := by
          rw [← h]
          rfl
        have hlook : ∀ q, lookupUTD t3.user_table_data q =
            if q = p then (lookupUTD t.user_table_data p).map
              (fun d => { d with cards := d.cards ++ [card] })
            else lookupUTD t.user_table_data q := by
          intro q
          rw [ht3]
          exact lookupUTD_pushCardUTD p q card t.user_table_data
        have hact3 : ∀ q, actOf t3 q = actOf t q := by
          intro q
          unfold actOf
          rw [hlook q]
          by_cases hq : q = p
          · subst hq
            cases lookupUTD t.user_table_data q <;> simp
          · rw [if_neg hq]
        have hisact3 : ∀ q, isActive t3 q = isActive t q := by
          intro q
          rw [isActive_eq_actOf, isActive_eq_actOf, hact3 q]
        have hlen3 : ∀ q, q ≠ p → cardsLen t3 q = cardsLen t q := by
          intro q hq
          unfold cardsLen
          rw [hlook q, if_neg hq]
        have hlenp : cardsLen t3 p = (cardsLen t p).map (fun n => n + 1) := by
          unfold cardsLen
          rw [hlook p, if_pos rfl]
          cases lookupUTD t.user_table_data p <;> simp
        obtain ⟨ih1, ih2, ih3, ih4⟩ := ih t3 t' hnd2 hstep
        refine ⟨?_, ?_, ?_, ?_⟩
        · intro q
          rw [ih1 q, hact3 q]
        · intro q hq hqa
          rcases List.mem_cons.mp hq with hq | hq
          · subst hq
            rw [ih3 q hpnotin, hlenp]
          · have hqp : q ≠ p := fun hh => hpnotin (hh ▸ hq)
            rw [ih2 q hq (by rw [hisact3 q]; exact hqa), hlen3 q hqp]
        · intro q hq
          have hq1 : q ≠ p := fun hh => hq (hh ▸ List.mem_cons_self p rest)
          have hq2 : q ∉ rest := fun hh => hq (List.mem_cons_of_mem p hh)
          rw [ih3 q hq2, hlen3 q hq1]
        · intro q hq
          have hq1 : q ≠ p := by
            intro hh
            subst hh
            rw [hact] at hq
            exact Bool.noConfusion hq
          rw [ih4 q (by rw [hisact3 q]; exact hq), hlen3 q hq1]
    · have hfalse : isActive t p = false := by
        cases hb : isActive t p
        · rfl
        · exact absurd hb hact
      rw [if_pos (by rw [sittingOut_eq_not_isActive, hfalse]; rfl)] at h
      obtain ⟨ih1, ih2, ih3, ih4⟩ := ih t t' hnd2 h
      refine ⟨ih1, ?_, ?_, ih4⟩
      · intro q hq hqa
        rcases List.mem_cons.mp hq with hq | hq
        · subst hq
          exact absurd hqa hact
        · exact ih2 q hq hqa
      · intro q hq
        exact ih3 q (fun hh => hq (List.mem_cons_of_mem p hh))

theorem dealPasses_spec (k : Nat) : ∀ (t t' : Table) (ps : List Nat), ps.Nodup →
    t.dealPasses ps k = (none, t') →
    (∀ q, actOf t' q = actOf t q) ∧
    (∀ q, q ∈ ps → isActive t q = true →
        cardsLen t' q = (cardsLen t q).map (fun n => n + k)) ∧
    (∀ q, q ∉ ps → cardsLen t' q = cardsLen t q) ∧
    (∀ q, isActive t q = false → cardsLen t' q = cardsLen t q) := by
  induction k with
  | zero =>
    intro t t' ps _ h
    have ht : t = t' := by
      simpa [Table.dealPasses] using h
    subst ht
    refine ⟨fun q => rfl, ?_, fun q _ => rfl, fun q _ => rfl⟩
    intro q _ _
    cases cardsLen t q <;> simp
  | succ k ih =>
    intro t t' ps hnd h
    rw [Table.dealPasses] at h
    cases hp : t.dealPass ps with
    | mk e t1 =>
      rw [hp] at h
      cases e with
      | some e0 =>
        exact absurd (congrArg Prod.fst h) (by simp)
      | none =>
        have hpass : t.dealPass ps = (none, t1) := hp
        obtain ⟨p1, p2, p3, p4⟩ := dealPass_spec ps t t1 hnd hpass
        obtain ⟨q1, q2, q3, q4⟩ := ih t1 t' ps hnd h
        have hisact : ∀ q, isActive t1 q = isActive t q := by
          intro q
          rw [isActive_eq_actOf, isActive_eq_actOf, p1 q]
        refine ⟨?_, ?_, ?_, ?_⟩
        · intro q
          rw [q1 q, p1 q]
        · intro q hq hqa
          rw [q2 q hq (by rw [hisact q]; exact hqa), p2 q hq hqa]
          cases cardsLen t q with
          | none => simp
          | some n =>
            simp
            omega
        · intro q hq
          rw [q3 q hq, p3 q hq]
        · intro q hq
          rw [q4 q (by rw [hisact q]; exact hq), p4 q hq]

/-- C6 amended: when deal_cards runs in the Opening stage, every occupied
player that is not sitting out receives exactly k hole cards, k = 4 for PLO4,
5 for PLO5 and 2 otherwise, dealt one card per pass over the occupied seats in
seat-array order starting from seat index 0 (not from the player left of the
dealer), for k passes; sitting-out or data-less players receive none, and
afterwards deal_stage is Flop. -/
theorem C6_opening_deal_counts_and_stage (t t' : Table)
    (hnd : (occupiedPrincipals t.seats).Nodup)
    (h : t.dealOpeningCards = (none, t')) :
    t'.deal_stage = DealStage.flop ∧
    (∀ q, q ∈ occupiedPrincipals t.seats → isActive t q = true →
      cardsLen t' q = (cardsLen t q).map
        (fun n => n + numHoleCards t.config.game_type)) ∧
    (∀ q, q ∉ occupiedPrincipals t.seats → cardsLen t' q = cardsLen t q) ∧
    (∀ q, isActive t q = false → cardsLen t' q = cardsLen t q) := by
  rw [Table.dealOpeningCards] at h
  cases hp : t.dealPasses (occupiedPrincipals t.seats)
      (numHoleCards t.config.game_type) with
  | mk e t1 =>
    rw [hp] at h
    cases e with
    | some e0 =>
      exact absurd (congrArg Prod.fst h) (by simp)
    | none =>
      have ht : t' = { t1 with deal_stage := DealStage.flop } := by
        have := congrArg Prod.snd h
        simpa using this.symm
      obtain ⟨q1, q2, q3, q4⟩ := dealPasses_spec (numHoleCards t.config.game_type)
        t t1 (occupiedPrincipals t.seats) hnd hp
      subst ht
      exact ⟨rfl, q2, q3, q4⟩

/-- Witness for C6 amended at the concrete c6Table: both players are occupied
and active, the deal succeeds, and each receives exactly 2 cards. -/
theorem C6_opening_deal_counts_and_stage_witness :
    ((Table.dealOpeningCards c6Table).2.deal_stage = DealStage.flop ∧
      cardsLen (Table.dealOpeningCards c6Table).2 10
        = (cardsLen c6Table 10).map (fun n => n + 2)) := by
  have h : Table.dealOpeningCards c6Table
      = (none, (Table.dealOpeningCards c6Table).2) := by decide
  have hmain := C6_opening_deal_counts_and_stage c6Table
    (Table.dealOpeningCards c6Table).2 (by decide) h
  exact ⟨hmain.1, hmain.2.1 10 (by decide) (by decide)⟩

/-- C6 fails on the code in its dealing-order part: on c6Table the dealer sits
at seat 0, so the player left of the dealer is the seat-1 player 20; the first
card popped from the deck is the tail card cE, yet it goes to the seat-0
player 10 — player 20 receives [cD, cB], which does not contain cE. Dealing
starts at seat 0, not left of the dealer. -/
theorem C6_deal_order_counterexample :
    (Table.dealOpeningCards c6Table).1 = none ∧
    c6Table.dealer_position = 0 ∧
    c6Table.seats = [SeatStatus.occupied 10, SeatStatus.occupied 20] ∧
    c6Table.deck.getLast? = some cE ∧
    cardsOf (Table.dealOpeningCards c6Table).2 10 = some [cE, cC] ∧
    cardsOf (Table.dealOpeningCards c6Table).2 20 = some [cD, cB] ∧
    cE ∉ [cD, cB] := by
  refine ⟨by decide, by decide, by decide, by decide, by decide, by decide, by decide⟩

theorem ltb_true_iff (a b : Rank) :
    Rank.ltb a b = true ↔
      (a.variantIdx < b.variantIdx
        ∨ (a.variantIdx = b.variantIdx ∧ a.kick < b.kick)) := by
  simp [Rank.ltb]

theorem ltb_false_iff (a b : Rank) :
    Rank.ltb a b = false ↔
      (b.variantIdx < a.variantIdx
        ∨ (b.variantIdx = a.variantIdx ∧ b.kick ≤ a.kick)) := by
  simp [Rank.ltb]
  omega

theorem leb_true_iff (a b : Rank) :
    Rank.leb a b = true ↔
      (a.variantIdx < b.variantIdx
        ∨ (a.variantIdx = b.variantIdx ∧ a.kick ≤ b.kick)) := by
  simp [Rank.leb, Rank.ltb]
  omega

theorem ltb_self (a : Rank) : Rank.ltb a a = false :=
  (ltb_false_iff a a).mpr (Or.inr ⟨rfl, Nat.le_refl _⟩)

theorem ltb_false_trans (a b c : Rank) (h1 : Rank.ltb a b = false)
    (h2 : Rank.ltb b c = false) : Rank.ltb a c = false := by
  rw [ltb_false_iff] at h1 h2 ⊢
  omega

theorem leb_of_ltb_false (a b : Rank) (h : Rank.ltb a b = false) :
    Rank.leb b a = true := by
  rw [ltb_false_iff] at h
  rw [leb_true_iff]
  omega

theorem rank_eq_of_parts (a b : Rank) (h1 : a.variantIdx = b.variantIdx)
    (h2 : a.kick = b.kick) : a = b := by
  cases a <;> cases b <;> simp_all [Rank.variantIdx, Rank.kick]

theorem rankStep_not_lt_left (b r : Rank) :
    Rank.ltb (rankStep b r) b = false := by
  unfold rankStep
  by_cases h : Rank.ltb b r = true
  · rw [if_pos h, ltb_false_iff]
    have := (ltb_true_iff b r).mp h
    omega
  · rw [if_neg h]
    exact ltb_self b

theorem rankStep_not_lt_right (b r : Rank) :
    Rank.ltb (rankStep b r) r = false := by
  unfold rankStep
  by_cases h : Rank.ltb b r = true
  · rw [if_pos h]
    exact ltb_self r
  · rw [if_neg h]
    cases hb : Rank.ltb b r
    · rfl
    · exact absurd hb h

theorem foldl_rankStep_spec (rs : List Rank) : ∀ (b0 : Rank),
    Rank.ltb (rs.foldl rankStep b0) b0 = false ∧
    (∀ r ∈ rs, Rank.ltb (rs.foldl rankStep b0) r = false) ∧
    (rs.foldl rankStep b0 = b0 ∨ rs.foldl rankStep b0 ∈ rs) := by
  induction rs with
  | nil =>
    intro b0
    exact ⟨ltb_self b0, fun r hr => absurd hr (List.not_mem_nil r), Or.inl rfl⟩
  | cons r rs ih =>
    intro b0
    obtain ⟨c1, c2, c3⟩ := ih (rankStep b0 r)
    have hstep : ((r :: rs).foldl rankStep b0) = rs.foldl rankStep (rankStep b0 r) := rfl
    refine ⟨?_, ?_, ?_⟩
    · rw [hstep]
      exact ltb_false_trans _ _ _ c1 (rankStep_not_lt_left b0 r)
    · intro x hx
      rcases List.mem_cons.mp hx with hx | hx
      · subst hx
        rw [hstep]
        exact ltb_false_trans _ _ _ c1 (rankStep_not_lt_right b0 x)
      · rw [hstep]
        exact c2 x hx
    · rw [hstep]
      rcases c3 with hc | hc
      · by_cases h : Rank.ltb b0 r = true
        · have hr : rankStep b0 r = r := by simp only [rankStep, if_pos h]
          exact Or.inr (List.mem_cons.mpr (Or.inl (hc.trans hr)))
        · have hb : rankStep b0 r = b0 := by simp only [rankStep, if_neg h]
          exact Or.inl (hc.trans hb)
      · exact Or.inr (List.mem_cons.mpr (Or.inr hc))

theorem mem_combosK {α : Type} : ∀ (l : List α) (k : Nat) (c : List α),
    c ∈ combosK k l ↔ (c.Sublist l ∧ c.length = k) := by
  intro l
  induction l with
  | nil =>
    intro k c
    cases k with
    | zero =>
      simp only [combosK, List.mem_singleton]
      constructor
      · rintro rfl
        exact ⟨List.Sublist.refl [], rfl⟩
      · rintro ⟨hs, hl⟩
        exact List.length_eq_zero.mp hl
    | succ k =>
      simp only [combosK, List.not_mem_nil, false_iff]
      rintro ⟨hs, hl⟩
      rw [List.sublist_nil.mp hs] at hl
      exact Nat.noConfusion hl
  | cons x xs ih =>
    intro k c
    cases k with
    | zero =>
      simp only [combosK, List.mem_singleton]
      constructor
      · rintro rfl
        exact ⟨List.nil_sublist _, rfl⟩
      · rintro ⟨hs, hl⟩
        exact List.length_eq_zero.mp hl
    | succ k =>
      simp only [combosK, List.mem_append, List.mem_map]
      constructor
      · rintro (⟨c2, hc2, rfl⟩ | hc)
        · obtain ⟨hs, hl⟩ := (ih k c2).mp hc2
          exact ⟨List.Sublist.cons₂ x hs, by simp [hl]⟩
        · obtain ⟨hs, hl⟩ := (ih (k+1) c).mp hc
          exact ⟨List.Sublist.cons x hs, hl⟩
      · rintro ⟨hs, hl⟩
        rcases List.sublist_cons_iff.mp hs with hs2 | ⟨r, rfl, hr⟩
        · exact Or.inr ((ih (k+1) c).mpr ⟨hs2, hl⟩)
        · exact Or.inl ⟨r, (ih k r).mpr ⟨hr, by simpa using hl⟩, rfl⟩

theorem take_mem_combosK {α : Type} (l : List α) (k : Nat) (h : k ≤ l.length) :
    l.take k ∈ combosK k l :=
  (mem_combosK l k (l.take k)).mpr
    ⟨List.take_sublist k l, by simp [List.length_take]; omega⟩

theorem foldl_flatMap_eq {α β γ : Type} (g : γ → β → γ) (f : α → List β) :
    ∀ (l : List α) (b : γ),
      (l.flatMap f).foldl g b = l.foldl (fun b x => (f x).foldl g b) b := by
  intro l
  induction l with
  | nil => intro b; rfl
  | cons x xs ih =>
    intro b
    rw [List.flatMap_cons, List.foldl_append, List.foldl_cons, ih]

/-- C5: for any five-card evaluator, whenever a player has at least 2 hole
cards and at least 3 community cards, get_best_omaha_hand succeeds, the lists
folded over are exactly the size-2 subsets of the hole cards and the size-3
subsets of the community cards, and the returned rank is the maximum evaluator
value over all such 2-hole + 3-community five-card combinations (it bounds
every combination and is attained by one of them). -/
theorem C5_omaha_best_is_max_of_two_hole_three_community
    (rankFive : List Card → Rank) (hole community : List Card)
    (h2 : 2 ≤ hole.length) (h3 : 3 ≤ community.length) :
    ∃ r, bestOmahaRank rankFive hole community = Except.ok r ∧
      (∀ hc, hc ∈ combosK 2 hole ↔ (hc.Sublist hole ∧ hc.length = 2)) ∧
      (∀ cc, cc ∈ combosK 3 community ↔ (cc.Sublist community ∧ cc.length = 3)) ∧
      (∀ hc ∈ combosK 2 hole, ∀ cc ∈ combosK 3 community,
        Rank.leb (rankFive (hc ++ cc)) r = true) ∧
      (∃ hc, hc ∈ combosK 2 hole ∧ ∃ cc, cc ∈ combosK 3 community ∧
        r = rankFive (hc ++ cc)) := by
  have hg1 : ¬ hole.length < 2 := by omega
  have hg2 : ¬ community.length < 3 := by omega
  set ranks : List Rank := (combosK 2 hole).flatMap
    (fun hc => (combosK 3 community).map (fun cc => rankFive (hc ++ cc)))
    with hranks
  set m : Rank := ranks.foldl rankStep (Rank.highCard 0) with hm
  have hfold : bestOmahaRank rankFive hole community = Except.ok m := by
    unfold bestOmahaRank
    rw [if_neg hg1, if_neg hg2]
    congr 1
    rw [hm, hranks, foldl_flatMap_eq]
    congr 1
    funext b hc
    rw [List.foldl_map]
  have hmem : ∀ r, r ∈ ranks ↔ ∃ hc, hc ∈ combosK 2 hole ∧
      ∃ cc, cc ∈ combosK 3 community ∧ r = rankFive (hc ++ cc) := by
    intro r
    rw [hranks]
    simp only [List.mem_flatMap, List.mem_map]
    constructor
    · rintro ⟨hc, hhc, cc, hcc, rfl⟩
      exact ⟨hc, hhc, cc, hcc, rfl⟩
    · rintro ⟨hc, hhc, cc, hcc, rfl⟩
      exact ⟨hc, hhc, cc, hcc, rfl⟩
  have hne : ranks ≠ [] := by
    rw [hranks]
    intro hempty
    have hh : (hole.take 2) ∈ combosK 2 hole := take_mem_combosK hole 2 h2
    have hc : (community.take 3) ∈ combosK 3 community :=
      take_mem_combosK community 3 h3
    have : rankFive (hole.take 2 ++ community.take 3) ∈
        ((combosK 2 hole).flatMap
          (fun hc => (combosK 3 community).map (fun cc => rankFive (hc ++ cc)))) := by
      simp only [List.mem_flatMap, List.mem_map]
      exact ⟨_, hh, _, hc, rfl⟩
    rw [hempty] at this
    exact List.not_mem_nil _ this
  obtain ⟨f1, f2, f3⟩ := foldl_rankStep_spec ranks (Rank.highCard 0)
  refine ⟨m, hfold, fun hc => mem_combosK hole 2 hc,
    fun cc => mem_combosK community 3 cc, ?_, ?_⟩
  · intro hc hhc cc hcc
    have hr : rankFive (hc ++ cc) ∈ ranks :=
      (hmem _).mpr ⟨hc, hhc, cc, hcc, rfl⟩
    exact leb_of_ltb_false m (rankFive (hc ++ cc)) (f2 _ hr)
  · rcases f3 with hc | hc
    · obtain ⟨r0, hr0⟩ := List.exists_mem_of_ne_nil ranks hne
      rw [← hm] at hc
      have hbot := f2 r0 hr0
      rw [← hm] at hbot
      rw [ltb_false_iff] at hbot
      have hm0a : m.variantIdx = 0 := by rw [hc]; rfl
      have hm0b : m.kick = 0 := by rw [hc]; rfl
      have hr0eq : r0 = m := rank_eq_of_parts r0 m (by omega) (by omega)
      exact (hmem m).mp (hr0eq ▸ hr0)
    · rw [← hm] at hc
      exact (hmem m).mp hc

/-- Witness for C5 at a concrete input: the evaluator ranking a five-card list
by the sum of its card indexes, hole cards [cA, cB] and community [cC, cD, cE]
(2 and 3 cards exactly). -/
theorem C5_omaha_best_is_max_of_two_hole_three_community_witness :
    ∃ r, bestOmahaRank (fun cs => Rank.highCard (cs.map Card.idx).sum)
        [cA, cB] [cC, cD, cE] = Except.ok r ∧
      (∃ hc, hc ∈ combosK 2 [cA, cB] ∧ ∃ cc, cc ∈ combosK 3 [cC, cD, cE] ∧
        r = Rank.highCard ((hc ++ cc).map Card.idx).sum) := by
  obtain ⟨r, h1, _, _, _, h5⟩ :=
    C5_omaha_best_is_max_of_two_hole_three_community
      (fun cs => Rank.highCard (cs.map Card.idx).sum)
      [cA, cB] [cC, cD, cE] (by decide) (by decide)
  exact ⟨r, h1, h5⟩

/-- C1 (spec-modelled): for every pot-limit-family game type, a Raised(x) bet
is accepted iff x ≤ current_bet_to_match + (pot_before + uncommitted_round +
amount_to_call), stack permitting; in the two-seat PotLimit(1.0) scenario
after blinds SB = 1.0 and BB = 2.0 (e8s units: bet to match 2e8, confirmed pot
0, uncommitted blinds 3e8, call amount 1e8, maximum 6e8) the raise-to 5e8 is
accepted and the raise-to 10e8 is rejected. -/
theorem C1_pot_limit_rule_of_three (gt : GameType) (cur pot unc call x : Nat)
    (hgt : isPotLimitFamily gt = true) :
    (potLimitRaiseAccepted gt cur pot unc call x = true
        ↔ x ≤ cur + (pot + unc + call)) ∧
    potLimitRaiseAccepted (GameType.potLimit 100000000)
      200000000 0 300000000 100000000 500000000 = true ∧
    potLimitRaiseAccepted (GameType.potLimit 100000000)
      200000000 0 300000000 100000000 1000000000 = false ∧
    potLimitMaxRaise 200000000 0 300000000 100000000 = 600000000 := by
  refine ⟨?_, by decide, by decide, by decide⟩
  unfold potLimitRaiseAccepted potLimitMaxRaise
  rw [hgt]
  simp

/-- Witness for C1 at the concrete scenario values (game type PotLimit(1.0),
bet to match 2e8, confirmed pot 0, uncommitted 3e8, call 1e8). -/
theorem C1_pot_limit_rule_of_three_witness :
    (potLimitRaiseAccepted (GameType.potLimit 100000000)
        200000000 0 300000000 100000000 500000000 = true
      ↔ 500000000 ≤ 200000000 + (0 + 300000000 + 100000000)) ∧
    potLimitRaiseAccepted (GameType.potLimit 100000000)
      200000000 0 300000000 100000000 1000000000 = false := by
  have h := C1_pot_limit_rule_of_three (GameType.potLimit 100000000)
    200000000 0 300000000 100000000 500000000 (by decide)
  exact ⟨h.1, h.2.2.1⟩

theorem findUser_nil (p : Nat) : findUser [] p = none := rfl

theorem findUser_cons (u : UserRec) (rest : List UserRec) (p : Nat) :
    findUser (u :: rest) p = if u.principal_id = p then some u else findUser rest p := by
  by_cases h : u.principal_id = p <;> simp [findUser, List.find?_cons, h]

theorem depositUser_spec (p amt : Nat) : ∀ (us : List UserRec) (u : UserRec),
    findUser us p = some u →
    ∃ us2, depositUser p amt us = some ({ u with balance := u.balance + amt }, us2) ∧
      (∀ q, q ≠ p → findUser us2 q = findUser us q) ∧
      findUser us2 p = some { u with balance := u.balance + amt } := by
  intro us
  induction us with
  | nil =>
    intro u h
    rw [findUser_nil] at h
    exact Option.noConfusion h
  | cons v rest ih =>
    intro u h
    rw [findUser_cons] at h
    by_cases hv : v.principal_id = p
    · rw [if_pos hv] at h
      have hu : v = u := Option.some_inj.mp h
      subst hu
      refine ⟨{ v with balance := v.balance + amt } :: rest, ?_, ?_, ?_⟩
      · simp [depositUser, hv]
      · intro q hq
        rw [findUser_cons, findUser_cons]
        by_cases hvq : v.principal_id = q
        · exact absurd (hv ▸ hvq : p = q) (fun hh => hq hh.symm)
        · rw [if_neg (by simpa using hvq), if_neg hvq]
      · rw [findUser_cons, if_pos (by simpa using hv)]
    · rw [if_neg hv] at h
      obtain ⟨us2, h1, h2, h3⟩ := ih u h
      refine ⟨v :: us2, ?_, ?_, ?_⟩
      · simp [depositUser, hv, h1]
      · intro q hq
        rw [findUser_cons, findUser_cons]
        by_cases hvq : v.principal_id = q
        · rw [if_pos hvq, if_pos hvq]
        · rw [if_neg hvq, if_neg hvq]
          exact h2 q hq
      · rw [findUser_cons, if_neg hv]
        exact h3

theorem depositTied_spec (share : Nat) : ∀ (tied : List Nat) (us : List UserRec)
    (tot shares : List (Nat × Nat)),
    tied.Nodup → (∀ p ∈ tied, ∃ u, findUser us p = some u) →
    ∃ us2 tot2 shares2 ws,
      depositTied share tied us tot shares = (none, us2, tot2, shares2, ws) ∧
      (∀ q, q ∉ tied → findUser us2 q = findUser us q) ∧
      (∀ q u, q ∈ tied → findUser us q = some u →
        findUser us2 q = some { u with balance := u.balance + share }) := by
  intro tied
  induction tied with
  | nil =>
    intro us tot shares _ _
    exact ⟨us, tot, shares, [], rfl, fun q _ => rfl,
      fun q u hq => absurd hq (List.not_mem_nil q)⟩
  | cons p rest ih =>
    intro us tot shares hnd hus
    have hpnotin : p ∉ rest := (List.nodup_cons.mp hnd).1
    have hnd2 : rest.Nodup := (List.nodup_cons.mp hnd).2
    obtain ⟨u, hu⟩ := hus p (List.mem_cons_self p rest)
    obtain ⟨us1, hd, hd2, hd3⟩ := depositUser_spec p share us u hu
    have hus1 : ∀ q ∈ rest, ∃ w, findUser us1 q = some w := by
      intro q hq
      obtain ⟨w, hw⟩ := hus q (List.mem_cons_of_mem p hq)
      have hqp : q ≠ p := fun hh => hpnotin (hh ▸ hq)
      exact ⟨w, (hd2 q hqp).trans hw⟩
    obtain ⟨us2, tot2, shares2, ws, he, h2, h3⟩ :=
      ih us1 (addToTotals p share tot) (addToTotals p share shares) hnd2 hus1
    refine ⟨us2, tot2, shares2,
      { u with balance := u.balance + share } :: ws, ?_, ?_, ?_⟩
    · show depositTied share (p :: rest) us tot shares = _
      simp only [depositTied, hd, he]
    · intro q hq
      have hq1 : q ≠ p := fun hh => hq (hh ▸ List.mem_cons_self p rest)
      have hq2 : q ∉ rest := fun hh => hq (List.mem_cons_of_mem p hh)
      rw [h2 q hq2, hd2 q hq1]
    · intro q w hq hw
      rcases List.mem_cons.mp hq with hq | hq
      · subst hq
        have huw : u = w := Option.some_inj.mp (hu.symm.trans hw)
        subst huw
        rw [h2 q hpnotin]
        exact hd3
      · have hq1 : q ≠ p := fun hh => hpnotin (hh ▸ hq)
        exact h3 q w hq ((hd2 q hq1).trans hw)

/-- C4 fails on the code: with two equally ranked players and a pot of 3, each
winner is credited 3 / 2 = 1 and the pot is then cleared to 0 — the remainder
chip is neither retained in the pot nor credited to any winner (there is no
dealer-proximity tie-break in the code), so it is silently destroyed. -/
theorem C4_remainder_destroyed_counterexample :
    (c4Table.showdownDist (fun _ _ => 0) c4Ranked).1 = none ∧
    findUser (c4Table.showdownDist (fun _ _ => 0) c4Ranked).2.users 1
      = some { principal_id := 1, balance := 1001, user_name := "p1" } ∧
    findUser (c4Table.showdownDist (fun _ _ => 0) c4Ranked).2.users 2
      = some { principal_id := 2, balance := 1001, user_name := "p2" } ∧
    (c4Table.showdownDist (fun _ _ => 0) c4Ranked).2.pot = 0 ∧
    c4Table.pot = 3 := by
  refine ⟨by decide, by decide, by decide, by decide, by decide⟩

theorem userRec_add_zero (u : UserRec) :
    ({ u with balance := u.balance + 0 } : UserRec) = u := by
  cases u
  simp

theorem buildLogHands_some (us : List UserRec) (shares : List (Nat × Nat)) :
    ∀ (l : List RankedHand), (∀ rh ∈ l, ∃ u, findUser us rh.pid = some u) →
    ∃ lh, buildLogHands us shares l = some lh := by
  intro l
  induction l with
  | nil => intro _; exact ⟨[], rfl⟩
  | cons rh rest ih =>
    intro h
    obtain ⟨u, hu⟩ := h rh (List.mem_cons_self rh rest)
    obtain ⟨lh, hlh⟩ := ih (fun x hx => h x (List.mem_cons_of_mem rh hx))
    exact ⟨(u.user_name, rh.cards, lookupTotal shares rh.pid) :: lh,
      by simp [buildLogHands, hu, hlh]⟩

theorem tiedOf_sublist (l : List RankedHand) (f : RankedHand) :
    (tiedOf l f).Sublist (l.map (fun rh => rh.pid)) := by
  unfold tiedOf
  exact List.Sublist.map _ (List.filter_sublist l)

theorem sidePotTied_sublist (ranked : List RankedHand) (sp : SidePot) :
    (sidePotTied ranked sp).Sublist (ranked.map (fun rh => rh.pid)) := by
  unfold sidePotTied
  cases h : (sidePotInner ranked sp).head? with
  | none => exact List.nil_sublist _
  | some f =>
    exact (tiedOf_sublist (sidePotInner ranked sp) f).trans
      (List.Sublist.map _ (List.filter_sublist ranked))

theorem processSidePot_spec (rakeFn : Nat → Nat → Nat) (ranked : List RankedHand)
    (sp : SidePot) (t : Table) (winTot : List (Nat × Nat))
    (hrk : t.config.enable_rake = none)
    (hnd : (ranked.map (fun rh => rh.pid)).Nodup)
    (hus : ∀ rh ∈ ranked, ∃ u, findUser t.users rh.pid = some u) :
    ∃ t2 tot2,
      processSidePot rakeFn ranked sp t winTot = (none, t2, tot2) ∧
      t2.config = t.config ∧ t2.pot = t.pot ∧ t2.side_pots = t.side_pots ∧
      t2.seats = t.seats ∧
      (∀ q u, findUser t.users q = some u →
        findUser t2.users q
          = some { u with balance := u.balance + potCredit ranked sp q }) := by
  have hra : t.rakeApplies = false := by
    unfold Table.rakeApplies
    rw [hrk]
    rfl
  cases hin : (sidePotInner ranked sp).head? with
  | none =>
    have htied : sidePotTied ranked sp = [] := by
      unfold sidePotTied
      rw [hin]
    obtain ⟨lh, hlh⟩ := buildLogHands_some t.users [] (sidePotInner ranked sp)
      (fun rh hr => hus rh (List.mem_of_mem_filter hr))
    refine ⟨t.logAction none (ActionType.playersHandsRankedSidePot
        (if t.allPlayersFolded
          then lh.map (fun e => (e.1, ([] : List Card), e.2.2)) else lh)),
      winTot, ?_, rfl, rfl, rfl, rfl, ?_⟩
    · unfold processSidePot
      simp only [hra, Bool.false_eq_true, if_false, Nat.sub_zero, hin, hlh]
    · intro q u hu
      show findUser t.users q = _
      rw [hu]
      have hpc : potCredit ranked sp q = 0 := by
        simp [potCredit, htied]
      rw [hpc]
      exact congrArg some (userRec_add_zero u).symm
  | some firstI =>
    have htied : sidePotTied ranked sp = tiedOf (sidePotInner ranked sp) firstI := by
      unfold sidePotTied
      rw [hin]
    have hsub : (tiedOf (sidePotInner ranked sp) firstI).Sublist
        (ranked.map (fun rh => rh.pid)) := by
      rw [← htied]
      exact sidePotTied_sublist ranked sp
    have hndT : (tiedOf (sidePotInner ranked sp) firstI).Nodup :=
      List.Nodup.sublist hsub hnd
    have hpres : ∀ p ∈ tiedOf (sidePotInner ranked sp) firstI,
        ∃ u, findUser t.users p = some u := by
      intro p hp
      obtain ⟨rh, hrh, hpid⟩ := List.mem_map.mp (hsub.subset hp)
      obtain ⟨u, hu⟩ := hus rh hrh
      exact ⟨u, hpid ▸ hu⟩
    obtain ⟨us2, tot2, shares2, ws, he, h2, h3⟩ := depositTied_spec
      (sp.confirmed_pot / (tiedOf (sidePotInner ranked sp) firstI).length)
      (tiedOf (sidePotInner ranked sp) firstI) t.users winTot [] hndT hpres
    have hpres2 : ∀ rh ∈ sidePotInner ranked sp,
        ∃ w, findUser us2 rh.pid = some w := by
      intro rh hr
      obtain ⟨u, hu⟩ := hus rh (List.mem_of_mem_filter hr)
      by_cases hq : rh.pid ∈ tiedOf (sidePotInner ranked sp) firstI
      · exact ⟨_, h3 rh.pid u hq hu⟩
      · exact ⟨u, (h2 rh.pid hq).trans hu⟩
    obtain ⟨lh, hlh⟩ := buildLogHands_some us2 shares2 (sidePotInner ranked sp) hpres2
    refine ⟨Table.logAction { t with users := us2 } none
        (ActionType.playersHandsRankedSidePot
          (if ({ t with users := us2 } : Table).allPlayersFolded
            then lh.map (fun e => (e.1, ([] : List Card), e.2.2)) else lh)),
      tot2, ?_, rfl, rfl, rfl, rfl, ?_⟩
    · unfold processSidePot
      simp only [hra, Bool.false_eq_true, if_false, Nat.sub_zero, hin, he, hlh]
    · intro q u hu
      show findUser us2 q = _
      by_cases hq : q ∈ tiedOf (sidePotInner ranked sp) firstI
      · rw [h3 q u hq hu]
        have hpc : potCredit ranked sp q
            = sp.confirmed_pot / (tiedOf (sidePotInner ranked sp) firstI).length := by
          unfold potCredit
          rw [htied, if_pos hq]
        rw [hpc]
      · rw [(h2 q hq).trans hu]
        have hpc : potCredit ranked sp q = 0 := by
          unfold potCredit
          rw [htied, if_neg hq]
        rw [hpc]
        exact congrArg some (userRec_add_zero u).symm

theorem processSidePots_spec (rakeFn : Nat → Nat → Nat) (ranked : List RankedHand) :
    ∀ (sps : List SidePot) (t : Table) (winTot : List (Nat × Nat)),
    t.config.enable_rake = none →
    (ranked.map (fun rh => rh.pid)).Nodup →
    (∀ rh ∈ ranked, ∃ u, findUser t.users rh.pid = some u) →
    ∃ tF totF, processSidePots rakeFn ranked sps t winTot = (none, tF, totF) ∧
      tF.config = t.config ∧ tF.pot = t.pot ∧ tF.side_pots = t.side_pots ∧
      tF.seats = t.seats ∧
      (∀ q u, findUser t.users q = some u →
        findUser tF.users q
          = some { u with balance := u.balance + creditsOf ranked sps q }) := by
  intro sps
  induction sps with
  | nil =>
    intro t winTot _ _ _
    refine ⟨t, winTot, rfl, rfl, rfl, rfl, rfl, ?_⟩
    intro q u hu
    rw [hu]
    have hc : creditsOf ranked [] q = 0 := by simp [creditsOf]
    rw [hc]
    exact congrArg some (userRec_add_zero u).symm
  | cons sp rest ih =>
    intro t winTot hrk hnd hus
    obtain ⟨t2, tot2, hp, hc, hpot, hsps, hseats, hbal⟩ :=
      processSidePot_spec rakeFn ranked sp t winTot hrk hnd hus
    have hrk2 : t2.config.enable_rake = none := by
      rw [hc]
      exact hrk
    have hus2 : ∀ rh ∈ ranked, ∃ u, findUser t2.users rh.pid = some u := by
      intro rh hr
      obtain ⟨u, hu⟩ := hus rh hr
      exact ⟨_, hbal rh.pid u hu⟩
    obtain ⟨tF, totF, hPF, hcF, hpotF, hspsF, hseatsF, hbalF⟩ :=
      ih t2 tot2 hrk2 hnd hus2
    have hstep : processSidePots rakeFn ranked (sp :: rest) t winTot
        = processSidePots rakeFn ranked rest t2 tot2 := by
      simp only [processSidePots, hp]
    refine ⟨tF, totF, hstep.trans hPF, hcF.trans hc, hpotF.trans hpot,
      hspsF.trans hsps, hseatsF.trans hseats, ?_⟩
    intro q u hu
    rw [hbalF q _ (hbal q u hu)]
    have hcred : creditsOf ranked (sp :: rest) q
        = potCredit ranked sp q + creditsOf ranked rest q := by
      simp [creditsOf]
    apply congrArg some
    cases u
    simp [hcred, Nat.add_assoc]

/-- C4 amended: in a rake-disabled showdown, for each pot — the side pots
first, then the main pot — each of the n ≥ 1 tied top-ranked eligible winners
is credited exactly floor(pot / n); the remainder pot mod n is not
redistributed — the pot and the side-pot list are cleared afterwards, so each
remainder is removed from play, and there is no dealer-proximity tie-break. -/
theorem C4_pot_split_floor_and_clear (t : Table) (rakeFn : Nat → Nat → Nat)
    (ranked : List RankedHand) (first : RankedHand)
    (hfirst : ranked.head? = some first)
    (hrk : t.config.enable_rake = none)
    (hnd : (ranked.map (fun rh => rh.pid)).Nodup)
    (hus : ∀ rh ∈ ranked, ∃ u, findUser t.users rh.pid = some u) :
    (t.showdownDist rakeFn ranked).1 = none ∧
    (t.showdownDist rakeFn ranked).2.pot = 0 ∧
    (t.showdownDist rakeFn ranked).2.side_pots = [] ∧
    (∀ q u, findUser t.users q = some u →
      findUser (t.showdownDist rakeFn ranked).2.users q
        = some { u with balance := u.balance + totalPayout t ranked first q }) := by
  obtain ⟨tF, totF, hP, hc, hpot, hsps, hseats, hbalF⟩ :=
    processSidePots_spec rakeFn ranked
      (((t.logAction none (ActionType.stage t.deal_stage)).rotateDealer.confirmSidePots).side_pots)
      ((t.logAction none (ActionType.stage t.deal_stage)).rotateDealer.confirmSidePots)
      [] hrk hnd hus
  have hndM : (tiedOf ranked first).Nodup :=
    List.Nodup.sublist (tiedOf_sublist ranked first) hnd
  have hpresM : ∀ p ∈ tiedOf ranked first, ∃ u, findUser tF.users p = some u := by
    intro p hp
    obtain ⟨rh, hrh, hpid⟩ := List.mem_map.mp ((tiedOf_sublist ranked first).subset hp)
    obtain ⟨u, hu⟩ := hus rh hrh
    exact ⟨_, hbalF p u (hpid ▸ hu)⟩
  obtain ⟨us3, tot3, shares3, ws, he, h2, h3⟩ := depositTied_spec
    (tF.pot / (tiedOf ranked first).length) (tiedOf ranked first)
    tF.users totF [] hndM hpresM
  have hra : tF.rakeApplies = false := by
    unfold Table.rakeApplies
    rw [hc, show (t.logAction none
      (ActionType.stage t.deal_stage)).rotateDealer.confirmSidePots.config = t.config
      from rfl, hrk]
    rfl
  have hkey : t.showdownDist rakeFn ranked = (none,
      { Table.setSortedUsers { tF with users := us3, winners := some ws } ranked tot3
        with pot := 0, side_pots := [] }) := by
    unfold Table.showdownDist
    simp only [hP, hra, Bool.false_eq_true, if_false, hfirst, he]
  rw [hkey]
  refine ⟨rfl, rfl, rfl, ?_⟩
  intro q u hu
  show findUser us3 q = _
  have hbal2 := hbalF q u hu
  by_cases hq : q ∈ tiedOf ranked first
  · rw [h3 q _ hq hbal2]
    apply congrArg some
    cases u
    simp [totalPayout, if_pos hq, hpot, Table.confirmSidePots, Table.rotateDealer,
      Table.logAction, Nat.add_assoc]
  · rw [(h2 q hq).trans hbal2]
    apply congrArg some
    cases u
    simp [totalPayout, if_neg hq, Table.confirmSidePots, Table.rotateDealer,
      Table.logAction]

/-- Witness for C4 amended at a concrete table with one side pot (confirmed 5,
both players eligible) and a main pot of 3: each tied winner is credited
5 / 2 = 2 from the side pot and 3 / 2 = 1 from the main pot, ending at 1003;
both remainders vanish and the pot and side pots are cleared. -/
theorem C4_pot_split_floor_and_clear_witness :
    (c4sTable.showdownDist (fun _ _ => 0) c4Ranked).1 = none ∧
    (c4sTable.showdownDist (fun _ _ => 0) c4Ranked).2.pot = 0 ∧
    (c4sTable.showdownDist (fun _ _ => 0) c4Ranked).2.side_pots = [] ∧
    findUser (c4sTable.showdownDist (fun _ _ => 0) c4Ranked).2.users 1
      = some { principal_id := 1, balance := 1003, user_name := "p1" } := by
  obtain ⟨ha, hb, hcc, hd⟩ := C4_pot_split_floor_and_clear c4sTable
    (fun _ _ => 0) c4Ranked
    { pid := 1, hand := [], rank := Rank.pair 5, cards := [] }
    (by decide) (by decide) (by decide)
    (by intro rh hr
        refine ⟨if rh.pid = 1
          then { principal_id := 1, balance := 1000, user_name := "p1" }
          else { principal_id := 2, balance := 1000, user_name := "p2" }, ?_⟩
        fin_cases hr <;> decide)
  refine ⟨ha, hb, hcc, ?_⟩
  have := hd 1 { principal_id := 1, balance := 1000, user_name := "p1" } (by decide)
  rw [this]
  decide

end ZkPoker
